import Mathlib

/-!
Verification of the action-queue reconstruction engine of the staack_website
repository (src/api/daily10/challenge/[id].ts and its duplicate in
src/api/hands/lib/types.ts).  The engine expands a sparse, position-keyed
per-street action map into an ordered list of replayable hand actions.

The embedding models a street's raw JSON object as an ordered association
list of keys to values, where a value is a string, a nested object (from
which the code only ever reads the "Action", "Amount" and "Cards" fields),
or anything else.  JavaScript numbers are modelled as rationals; JavaScript
Map and Set are modelled as association lists with insertion-order
semantics.
-/

/-- A nested JSON object as the engine reads it: the optional "Action"
string, "Amount" number and "Cards" string fields (any other field is never
read by the code). -/
structure EntryObj where
  action : Option String
  amount : Option ℚ
  cards : Option String
deriving DecidableEq, Repr

/-- A value of a street-data object: a string, a (non-null) object, or any
other JavaScript value (number, boolean, null, undefined), which the code
treats uniformly by failing its typeof-object tests. -/
inductive JsVal where
  | str (s : String)
  | obj (e : EntryObj)
  | other
deriving DecidableEq, Repr

/-- A street-data object: its entries in JavaScript enumeration order. -/
abbrev StreetData := List (String × JsVal)

/-- One output event of the reconstruction (interface HandAction). -/
structure HandAction where
  position : String
  action : String
  amount : ℚ
  isBoard : Bool
  boardCards : Option String
deriving DecidableEq, Repr

/-- A recorded (label, amount) pair after key decoding (type ActionPair). -/
structure ActionPair where
  action : String
  amount : ℚ
deriving DecidableEq, Repr

def PREFLOP_ORDER : List String := ["UTG", "HJ", "CO", "BTN", "SB", "BB"]

def POSTFLOP_ORDER : List String := ["SB", "BB", "UTG", "HJ", "CO", "BTN"]

/-- ALL_POSITIONS in the source is a Set built in this insertion order. -/
def ALL_POSITIONS : List String := ["SB", "BB", "UTG", "HJ", "CO", "BTN"]

/-- Case-insensitive match of three characters against "bet" (the tail of
the regular expression `[345]-?[Bb]et` under the i flag; all characters
involved are ASCII, where JavaScript canonicalisation agrees with
`Char.toLower`). -/
def betTail : List Char → Bool
  | [b, e, t] => b.toLower == 'b' && e.toLower == 'e' && t.toLower == 't'
  | _ => false

/-- The test `/^[345]-?[Bb]et$/i.test(action)`. -/
def is345Bet (s : String) : Bool :=
  match s.data with
  | [] => false
  | c :: rest =>
    (c == '3' || c == '4' || c == '5') &&
      (betTail rest ||
        (match rest with
         | '-' :: rest2 => betTail rest2
         | _ => false))

/-- Port of normalizeAction: 3/4/5-bet labels collapse to "Raise", anything
else passes through.  The explicit includes-list of the source is kept even
though the regular expression subsumes it. -/
def normalizeAction (act : String) : String :=
  if is345Bet act || ["3Bet", "3bet", "4Bet", "4bet", "5Bet", "5bet"].contains act then
    "Raise"
  else act

/-- Port of parsePositionKey: a bare position name is a first-orbit key, a
key beginning "<position>_" is a second-orbit key, anything else is
rejected.  The source's key.startsWith test is modelled on the character
lists (equivalent for the code-point strings of the model). -/
def parsePositionKey (key : String) : Option (String × Bool) :=
  if key ∈ ALL_POSITIONS then some (key, false)
  else
    match ALL_POSITIONS.find? (fun pos => List.isPrefixOf (pos ++ "_").data key.data) with
    | some pos => some (pos, true)
    | none => none

/-- Property lookup on a street-data object (the JavaScript `streetData[k]`;
keys of an actual JavaScript object are unique, so first match). -/
def lookupField : StreetData → String → Option JsVal
  | [], _ => none
  | (k, v) :: rest, key => if k = key then some v else lookupField rest key

/-- The Object.values loop of extractBoardCards: first nested object whose
"Cards" string reaches the expected length. -/
def scanValuesForCards (expectedLength : Nat) : List JsVal → Option String
  | [] => none
  | v :: rest =>
    match v with
    | JsVal.obj e =>
      match e.cards with
      | some c =>
        if expectedLength ≤ c.length then some c
        else scanValuesForCards expectedLength rest
      | none => scanValuesForCards expectedLength rest
    | _ => scanValuesForCards expectedLength rest

/-- Port of extractBoardCards. -/
def extractBoardCards (sd : StreetData) (expectedLength : Nat) : Option String :=
  match lookupField sd "Cards" with
  | some (JsVal.str s) =>
    if 0 < s.length then some s
    else scanValuesForCards expectedLength (sd.map Prod.snd)
  | _ => scanValuesForCards expectedLength (sd.map Prod.snd)

/-- Association-list model of the Maps positionActions / secondActions. -/
abbrev ActMap := List (String × ActionPair)

/-- Map.get. -/
def getA : ActMap → String → Option ActionPair
  | [], _ => none
  | (k, v) :: rest, key => if k = key then some v else getA rest key

/-- Map.set: replace in place, or append (insertion order preserved). -/
def setA : ActMap → String → ActionPair → ActMap
  | [], key, v => [(key, v)]
  | (k, w) :: rest, key, v =>
    if k = key then (key, v) :: rest else (k, w) :: setA rest key v

/-- Set.add on the insertion-ordered list model of a JavaScript Set. -/
def addSet (l : List String) (x : String) : List String :=
  if x ∈ l then l else l ++ [x]

/-- State threaded through a street's key-decoding loop: the two orbit maps
and the running amount (lastRaiseAmount preflop, lastBetAmount postflop). -/
structure StreetMaps where
  firstActions : ActMap
  secondActions : ActMap
  lastAmount : ℚ
deriving Repr

/-- The entry loop of buildPreflopActions: decode each key, skip malformed
values, track the last positive Raise amount, and record the pair in the
first- or second-orbit map. -/
def collectPreflop : StreetData → StreetMaps → StreetMaps
  | [], st => st
  | (key, v) :: rest, st =>
    collectPreflop rest
      (match parsePositionKey key with
       | none => st
       | some (pos, isSecond) =>
         match v with
         | JsVal.obj e =>
           match e.action with
           | none => st
           | some act =>
             let amount := e.amount.getD 0
             let normalized := normalizeAction act
             let lastAmt := if normalized = "Raise" ∧ 0 < amount then amount else st.lastAmount
             if isSecond then
               ⟨st.firstActions, setA st.secondActions pos ⟨normalized, amount⟩, lastAmt⟩
             else
               ⟨setA st.firstActions pos ⟨normalized, amount⟩, st.secondActions, lastAmt⟩
         | _ => st)

/-- The entry loop of buildPostflopActions; identical except that the
running amount starts at 0 and is updated by positive Bet or Raise
entries. -/
def collectPostflop : StreetData → StreetMaps → StreetMaps
  | [], st => st
  | (key, v) :: rest, st =>
    collectPostflop rest
      (match parsePositionKey key with
       | none => st
       | some (pos, isSecond) =>
         match v with
         | JsVal.obj e =>
           match e.action with
           | none => st
           | some act =>
             let amount := e.amount.getD 0
             let normalized := normalizeAction act
             let lastAmt :=
               if (normalized = "Bet" ∨ normalized = "Raise") ∧ 0 < amount then amount
               else st.lastAmount
             if isSecond then
               ⟨st.firstActions, setA st.secondActions pos ⟨normalized, amount⟩, lastAmt⟩
             else
               ⟨setA st.firstActions pos ⟨normalized, amount⟩, st.secondActions, lastAmt⟩
         | _ => st)

/-- The call-amount backfill loops: a recorded Call with amount 0 is
assigned the running amount. -/
def inferCalls (amt : ℚ) (m : ActMap) : ActMap :=
  m.map (fun p =>
    if p.2.action = "Call" ∧ p.2.amount = 0 then (p.1, ⟨"Call", amt⟩) else p)

/-- The decoded, backfilled maps of buildPreflopActions (lastRaiseAmount
starts at the big blind 1.0; the backfill is unconditional preflop). -/
def preflopMaps (preflop : StreetData) : StreetMaps :=
  let c := collectPreflop preflop ⟨[], [], 1⟩
  ⟨inferCalls c.lastAmount c.firstActions, inferCalls c.lastAmount c.secondActions,
    c.lastAmount⟩

/-- First preflop orbit over the positions strictly before the hero:
explicit entries verbatim (folding on "Fold"), inferred Fold for a silent
non-blind, inferred Fold for a silent blind only when a raise is recorded. -/
def preflopFirstOrbit (firstA : ActMap) (hasRaise : Bool) :
    List String → List String → List HandAction × List String
  | [], folded => ([], folded)
  | pos :: rest, folded =>
    match getA firstA pos with
    | some d =>
      let folded' := if d.action = "Fold" then addSet folded pos else folded
      let r := preflopFirstOrbit firstA hasRaise rest folded'
      (⟨pos, d.action, d.amount, false, none⟩ :: r.1, r.2)
    | none =>
      if pos ≠ "SB" ∧ pos ≠ "BB" then
        let r := preflopFirstOrbit firstA hasRaise rest (addSet folded pos)
        (⟨pos, "Fold", 0, false, none⟩ :: r.1, r.2)
      else if hasRaise then
        let r := preflopFirstOrbit firstA hasRaise rest (addSet folded pos)
        (⟨pos, "Fold", 0, false, none⟩ :: r.1, r.2)
      else preflopFirstOrbit firstA hasRaise rest folded

/-- The loop over positions strictly after the hero: skip folded, explicit
entries verbatim (folding on "Fold"), inferred Fold otherwise. -/
def preflopAfterHero (firstA : ActMap) :
    List String → List String → List HandAction × List String
  | [], folded => ([], folded)
  | pos :: rest, folded =>
    if pos ∈ folded then preflopAfterHero firstA rest folded
    else
      match getA firstA pos with
      | some d =>
        let folded' := if d.action = "Fold" then addSet folded pos else folded
        let r := preflopAfterHero firstA rest folded'
        (⟨pos, d.action, d.amount, false, none⟩ :: r.1, r.2)
      | none =>
        let r := preflopAfterHero firstA rest (addSet folded pos)
        (⟨pos, "Fold", 0, false, none⟩ :: r.1, r.2)

/-- The positions after the hero in preflop order.  indexOf returns -1 for
a hero not in the order, in which case the source loop starts at 0, i.e.
walks the whole order. -/
def afterHeroList (hero : String) : List String :=
  match PREFLOP_ORDER.findIdx? (fun p => p == hero) with
  | some i => PREFLOP_ORDER.drop (i + 1)
  | none => PREFLOP_ORDER

/-- The original raiser, final raise amount and raise count of the
first-orbit map, scanned in preflop order. -/
structure RaiseInfo where
  originalRaiser : Option String
  finalRaiseAmount : ℚ
  raiseCount : Nat
deriving Repr

def raiseScanAux (firstA : ActMap) : List String → RaiseInfo → RaiseInfo
  | [], st => st
  | pos :: rest, st =>
    match getA firstA pos with
    | some d =>
      if d.action = "Raise" then
        raiseScanAux firstA rest
          ⟨if st.raiseCount + 1 = 1 then some pos else st.originalRaiser,
            d.amount, st.raiseCount + 1⟩
      else raiseScanAux firstA rest st
    | none => raiseScanAux firstA rest st

def raiseScan (firstA : ActMap) (lastRaise : ℚ) : RaiseInfo :=
  raiseScanAux firstA PREFLOP_ORDER ⟨none, lastRaise, 0⟩

/-- The preflop second orbit: walk preflop order skipping folded positions;
at the hero emit its second-orbit entry (or an inferred Call when the hero
was the original raiser of a multi-raise pot) and stop; elsewhere emit the
second-orbit entry verbatim, or an inferred Call for the original raiser of
a multi-raise pot. -/
def preflopSecondOrbit (secondA : ActMap) (hero : String) (ri : RaiseInfo) :
    List String → List String → List HandAction × List String
  | [], folded => ([], folded)
  | pos :: rest, folded =>
    if pos ∈ folded then preflopSecondOrbit secondA hero ri rest folded
    else if pos = hero then
      match getA secondA hero with
      | some hs => ([⟨hero, hs.action, hs.amount, false, none⟩], folded)
      | none =>
        if 1 < ri.raiseCount ∧ ri.originalRaiser = some hero ∧ hero ∉ folded then
          ([⟨hero, "Call", ri.finalRaiseAmount, false, none⟩], folded)
        else ([], folded)
    else
      match getA secondA pos with
      | some d =>
        let folded' := if d.action = "Fold" then addSet folded pos else folded
        let r := preflopSecondOrbit secondA hero ri rest folded'
        (⟨pos, d.action, d.amount, false, none⟩ :: r.1, r.2)
      | none =>
        if 1 < ri.raiseCount ∧ ri.originalRaiser = some pos ∧ pos ∉ folded then
          let r := preflopSecondOrbit secondA hero ri rest folded
          (⟨pos, "Call", ri.finalRaiseAmount, false, none⟩ :: r.1, r.2)
        else preflopSecondOrbit secondA hero ri rest folded

/-- Port of buildPreflopActions: forced posts, first orbit before the hero,
the hero's recorded entry, the positions after the hero, then the second
orbit; returns the actions and the folded set. -/
def buildPreflopActions (preflop : StreetData) (hero : String) :
    List HandAction × List String :=
  let m := preflopMaps preflop
  let hasRaise := m.firstActions.any (fun p => p.2.action == "Raise")
  let r1 := preflopFirstOrbit m.firstActions hasRaise
    (PREFLOP_ORDER.takeWhile (fun p => p != hero)) []
  let heroActs : List HandAction :=
    match getA m.firstActions hero with
    | some d => [⟨hero, d.action, d.amount, false, none⟩]
    | none => []
  let r2 := preflopAfterHero m.firstActions (afterHeroList hero) r1.2
  let ri := raiseScan m.firstActions m.lastAmount
  let r3 := preflopSecondOrbit m.secondActions hero ri PREFLOP_ORDER r2.2
  (⟨"SB", "Post", mkRat 1 2, false, none⟩ :: ⟨"BB", "Post", 1, false, none⟩ ::
    (r1.1 ++ heroActs ++ r2.1 ++ r3.1), r3.2)

/-- The decoded, backfilled maps of buildPostflopActions (lastBetAmount
starts at 0; the backfill runs only when some positive bet was seen). -/
def postflopMaps (sd : StreetData) : StreetMaps :=
  let c := collectPostflop sd ⟨[], [], 0⟩
  if 0 < c.lastAmount then
    ⟨inferCalls c.lastAmount c.firstActions, inferCalls c.lastAmount c.secondActions,
      c.lastAmount⟩
  else c

/-- The positions still live entering a postflop street, in postflop
order. -/
def activePositions (folded : List String) : List String :=
  POSTFLOP_ORDER.filter (fun p => decide (p ∉ folded))

/-- The loop locating the first aggressor: index of the first active
position whose first-orbit entry is a Bet or Raise. -/
def isAggEntry (firstA : ActMap) (pos : String) : Bool :=
  match getA firstA pos with
  | some d => d.action == "Bet" || d.action == "Raise"
  | none => false

def firstAggIdxAux (firstA : ActMap) : Nat → List String → Option Nat
  | _, [] => none
  | i, pos :: rest =>
    if isAggEntry firstA pos then some i else firstAggIdxAux firstA (i + 1) rest

def firstAggIdx (firstA : ActMap) (aps : List String) : Option Nat :=
  firstAggIdxAux firstA 0 aps

/-- The postflop first-orbit traversal, `i` the index in the active list.
Stops without emitting at a hero with no recorded entry; emits
Bet/Raise/Check verbatim, stopping after a Bet or Raise; a recorded
Call/Fold before the aggressor becomes an inferred Check; a silent seat
becomes an inferred Check when a later active seat has a recorded entry.
(The source's trailing hero check repeats the Bet/Raise stop and is
subsumed by it.) -/
def postflopFirstOrbit (firstA : ActMap) (hero : String) (aggIdx : Option Nat) :
    Nat → List String → List HandAction
  | _, [] => []
  | i, pos :: rest =>
    if pos = hero ∧ getA firstA hero = none then []
    else
      match getA firstA pos with
      | some d =>
        if d.action = "Bet" ∨ d.action = "Raise" then
          [⟨pos, d.action, d.amount, false, none⟩]
        else if d.action = "Check" then
          ⟨pos, d.action, d.amount, false, none⟩ ::
            postflopFirstOrbit firstA hero aggIdx (i + 1) rest
        else if d.action = "Call" ∨ d.action = "Fold" then
          match aggIdx with
          | some j =>
            if i < j then
              ⟨pos, "Check", 0, false, none⟩ ::
                postflopFirstOrbit firstA hero aggIdx (i + 1) rest
            else postflopFirstOrbit firstA hero aggIdx (i + 1) rest
          | none => postflopFirstOrbit firstA hero aggIdx (i + 1) rest
        else postflopFirstOrbit firstA hero aggIdx (i + 1) rest
      | none =>
        if rest.any (fun p => (getA firstA p).isSome) then
          ⟨pos, "Check", 0, false, none⟩ ::
            postflopFirstOrbit firstA hero aggIdx (i + 1) rest
        else postflopFirstOrbit firstA hero aggIdx (i + 1) rest

/-- The pass over the active positions after the aggressor: stop before a
hero with no recorded entry; emit recorded Call/Fold/Raise verbatim
(collecting new folds); a silent seat becomes an inferred Call at the
running bet amount; stop after the hero. -/
def postflopAfterAgg (firstA : ActMap) (hero : String) (lastBet : ℚ) :
    List String → List HandAction × List String
  | [] => ([], [])
  | pos :: rest =>
    if pos = hero ∧ getA firstA hero = none then ([], [])
    else
      let step : List HandAction × List String :=
        match getA firstA pos with
        | some d =>
          if d.action = "Call" ∨ d.action = "Fold" ∨ d.action = "Raise" then
            ([⟨pos, d.action, d.amount, false, none⟩],
              if d.action = "Fold" then [pos] else [])
          else ([], [])
        | none => ([⟨pos, "Call", lastBet, false, none⟩], [])
      if pos = hero then step
      else
        let r := postflopAfterAgg firstA hero lastBet rest
        (step.1 ++ r.1, step.2 ++ r.2)

/-- Whether the hero's first-orbit entry is a Call (the optional-chaining
test of the source's second pass). -/
def firstIsCall (firstA : ActMap) (hero : String) : Bool :=
  match getA firstA hero with
  | some d => d.action == "Call"
  | none => false

/-- The pass over the active positions before the aggressor: stop before
the hero unless it has a second-orbit entry or a first-orbit Call; emit the
second-orbit entry verbatim, falling back to a first-orbit
Call/Fold/Raise; stop after the hero. -/
def postflopBeforeAgg (firstA secondA : ActMap) (hero : String) :
    List String → List HandAction × List String
  | [] => ([], [])
  | pos :: rest =>
    if pos = hero ∧ getA secondA hero = none ∧ firstIsCall firstA hero = false then
      ([], [])
    else
      let step : List HandAction × List String :=
        match getA secondA pos with
        | some d2 =>
          ([⟨pos, d2.action, d2.amount, false, none⟩],
            if d2.action = "Fold" then [pos] else [])
        | none =>
          match getA firstA pos with
          | some d =>
            if d.action = "Call" ∨ d.action = "Fold" ∨ d.action = "Raise" then
              ([⟨pos, d.action, d.amount, false, none⟩],
                if d.action = "Fold" then [pos] else [])
            else ([], [])
          | none => ([], [])
      if pos = hero then step
      else
        let r := postflopBeforeAgg firstA secondA hero rest
        (step.1 ++ r.1, step.2 ++ r.2)

/-- Port of buildPostflopActions: first orbit, then (when an aggressor
exists) the responses after and before the aggressor; returns the actions
and the newly folded positions. -/
def buildPostflopActions (sd : StreetData) (hero : String) (folded : List String) :
    List HandAction × List String :=
  let m := postflopMaps sd
  let aps := activePositions folded
  match firstAggIdx m.firstActions aps with
  | none => (postflopFirstOrbit m.firstActions hero none 0 aps, [])
  | some j =>
    let o1 := postflopFirstOrbit m.firstActions hero (some j) 0 aps
    let ra := postflopAfterAgg m.firstActions hero m.lastAmount (aps.drop (j + 1))
    let rb := postflopBeforeAgg m.firstActions m.secondActions hero (aps.take j)
    (o1 ++ ra.1 ++ rb.1, ra.2 ++ rb.2)

/-- A street field of the per-hand action map: absent, present but not an
object (a truthy-and-typeof-object test fails), or an object. -/
inductive StreetVal where
  | absent
  | notObj
  | obj (d : StreetData)
deriving Repr

def streetObj : StreetVal → Option StreetData
  | StreetVal.obj d => some d
  | _ => none

/-- The per-hand action map as the orchestrator reads it. -/
structure HandInput where
  preflop : StreetVal
  flop : StreetVal
  turn : StreetVal
  river : StreetVal
deriving Repr

/-- One street of the orchestrator's loop: skip a missing or non-object
street; emit a Board event when the extractor finds (truthy) cards; run the
postflop reconstructor and merge its new folds into the running folded
set. -/
def streetStep (hero : String) (folded : List String) (sv : StreetVal)
    (expectedLen : Nat) : List HandAction × List String :=
  match streetObj sv with
  | none => ([], folded)
  | some sd =>
    let boardEvts : List HandAction :=
      match extractBoardCards sd expectedLen with
      | some c => if c ≠ "" then [⟨"", "Board", 0, true, some c⟩] else []
      | none => []
    let r := buildPostflopActions sd hero folded
    (boardEvts ++ r.1, List.foldl addSet folded r.2)

/-- The orchestrator's street loop, appending each street's events. -/
def runStreets (hero : String) :
    List (StreetVal × Nat) → List HandAction × List String →
      List HandAction × List String
  | [], st => st
  | (sv, len) :: rest, st =>
    let r := streetStep hero st.2 sv len
    runStreets hero rest (st.1 ++ r.1, r.2)

/-- Port of buildActionQueue: the preflop reconstructor (when the preflop
street is an object), then flop, turn and river with expected board-card
lengths 6, 2 and 2. -/
def buildActionQueue (h : HandInput) (hero : String) : List HandAction :=
  let start :=
    match streetObj h.preflop with
    | some pf => buildPreflopActions pf hero
    | none => ([], [])
  (runStreets hero [(h.flop, 6), (h.turn, 2), (h.river, 2)] start).1

/-! ## Specification-side definitions, written from the spec's wording, to be
compared with the ported code above -/

/-- The street-level "Cards" field when it is a string (spec 4.3: "a direct
Cards field on the street-level object"). -/
def streetCards (sd : StreetData) : Option String :=
  match lookupField sd "Cards" with
  | some (JsVal.str s) => some s
  | _ => none

/-- The spec's nested scan: the Cards string of the first nested object
value whose Cards string has length at least the expected minimum. -/
def nestedCardsScan (sd : StreetData) (minLen : Nat) : Option String :=
  sd.findSome? (fun kv =>
    match kv.2 with
    | JsVal.obj e =>
      match e.cards with
      | some c => if minLen ≤ c.length then some c else none
      | none => none
    | _ => none)

/-- The board-card extractor as the amended claim describes it: the
street-level Cards string when present and nonempty (regardless of the
expected minimum length); otherwise the first qualifying nested Cards
string; none when neither exists. -/
def extractBoardCardsAmended (sd : StreetData) (minLen : Nat) : Option String :=
  match streetCards sd with
  | some s => if s ≠ "" then some s else nestedCardsScan sd minLen
  | none => nestedCardsScan sd minLen

/-- The spec's 3/4/5-bet pattern, stated structurally: a digit 3, 4 or 5,
an optional hyphen, then "bet" case-insensitively. -/
def Pattern345 (s : String) : Prop :=
  ∃ (c : Char) (mid tl : List Char),
    s.data = c :: (mid ++ tl) ∧ (c = '3' ∨ c = '4' ∨ c = '5') ∧
      (mid = [] ∨ mid = ['-']) ∧
      ∃ b e t, tl = [b, e, t] ∧ b.toLower = 'b' ∧ e.toLower = 'e' ∧ t.toLower = 't'

/-- The positive Raise amount carried by a well-formed street entry, if
any: the updates applied to lastRaiseAmount in the preflop entry loop. -/
def entryRaiseAmount (kv : String × JsVal) : Option ℚ :=
  match parsePositionKey kv.1 with
  | none => none
  | some _ =>
    match kv.2 with
    | JsVal.obj e =>
      match e.action with
      | some act =>
        if normalizeAction act = "Raise" ∧ 0 < e.amount.getD 0 then
          some (e.amount.getD 0)
        else none
      | none => none
    | _ => none

/-- The value lastRaiseAmount holds after the preflop entry loop: the
amount of the last entry (first- or second-orbit) that normalizes to Raise
with a positive amount, or the big blind 1.0 when there is none. -/
def lastPositiveRaiseAmount (preflop : StreetData) : ℚ :=
  (preflop.filterMap entryRaiseAmount).getLastD 1

/-! ## Basic lemmas about the map and set models -/

theorem mem_addSet {l : List String} {x p : String} :
    p ∈ addSet l x ↔ p ∈ l ∨ p = x := by
  unfold addSet
  split
  · constructor
    · exact fun h => Or.inl h
    · rintro (h | rfl) <;> assumption
  · simp

theorem mem_foldl_addSet {nf : List String} :
    ∀ {l : List String} {p : String},
      p ∈ List.foldl addSet l nf ↔ p ∈ l ∨ p ∈ nf := by
  induction nf with
  | nil => simp
  | cons x nf ih =>
    intro l p
    rw [List.foldl_cons, ih, mem_addSet, List.mem_cons]
    exact or_assoc

theorem getA_mem : ∀ {m : ActMap} {key : String} {d : ActionPair},
    getA m key = some d → (key, d) ∈ m := by
  intro m
  induction m with
  | nil => intro key d h; simp [getA] at h
  | cons kv rest ih =>
    intro key d h
    rcases kv with ⟨k, v⟩
    by_cases hk : k = key
    · subst hk
      simp [getA] at h
      subst h
      exact List.mem_cons_self _ _
    · simp [getA, hk] at h
      exact List.mem_cons_of_mem _ (ih h)

theorem mem_setA : ∀ {m : ActMap} {k : String} {v : ActionPair} {p},
    p ∈ setA m k v → p.1 = k ∨ p ∈ m := by
  intro m
  induction m with
  | nil =>
    intro k v p h
    simp [setA] at h
    subst h
    exact Or.inl rfl
  | cons kv rest ih =>
    intro k v p h
    rcases kv with ⟨k', v'⟩
    by_cases hk : k' = k
    · subst hk
      simp [setA] at h
      rcases h with rfl | h
      · exact Or.inl rfl
      · exact Or.inr (List.mem_cons_of_mem _ h)
    · simp [setA, hk] at h
      rcases h with rfl | h
      · exact Or.inr (List.mem_cons_self _ _)
      · rcases ih h with h | h
        · exact Or.inl h
        · exact Or.inr (List.mem_cons_of_mem _ h)

theorem inferCalls_cons (amt : ℚ) (k : String) (v : ActionPair) (rest : ActMap) :
    inferCalls amt ((k, v) :: rest) =
      (if v.action = "Call" ∧ v.amount = 0 then (k, ⟨"Call", amt⟩) else (k, v)) ::
        inferCalls amt rest := by
  by_cases hv : v.action = "Call" ∧ v.amount = 0 <;> simp [inferCalls, hv]

theorem getA_inferCalls (amt : ℚ) : ∀ (m : ActMap) (key : String),
    getA (inferCalls amt m) key =
      (getA m key).map
        (fun d => if d.action = "Call" ∧ d.amount = 0 then ⟨"Call", amt⟩ else d) := by
  intro m
  induction m with
  | nil => intro key; simp [inferCalls, getA]
  | cons kv rest ih =>
    intro key
    rcases kv with ⟨k, v⟩
    by_cases hv : v.action = "Call" ∧ v.amount = 0
    · rw [inferCalls_cons, if_pos hv]
      by_cases hk : k = key
      · subst hk; simp [getA, hv]
      · simpa [getA, hk] using ih key
    · rw [inferCalls_cons, if_neg hv]
      by_cases hk : k = key
      · subst hk; simp [getA, hv]
      · simpa [getA, hk] using ih key

theorem mem_of_takeWhile {α : Type} {q : α → Bool} :
    ∀ {l : List α} {a : α}, a ∈ List.takeWhile q l → a ∈ l := by
  intro l
  induction l with
  | nil => intro a h; simp [List.takeWhile] at h
  | cons x xs ih =>
    intro a h
    rw [List.takeWhile_cons] at h
    by_cases hq : q x = true
    · simp [hq] at h
      rcases h with rfl | h
      · exact List.mem_cons_self _ _
      · exact List.mem_cons_of_mem _ (ih h)
    · simp [hq] at h

theorem parsePositionKey_mem : ∀ {key : String} {pr : String × Bool},
    parsePositionKey key = some pr → pr.1 ∈ ALL_POSITIONS := by
  intro key pr h
  unfold parsePositionKey at h
  split at h
  · cases h
    assumption
  · split at h
    · cases h
      exact List.mem_of_find?_eq_some (by assumption)
    · cases h

theorem collectPreflop_keys : ∀ (l : StreetData) (st : StreetMaps),
    (∀ p ∈ st.firstActions, p.1 ∈ ALL_POSITIONS) →
    (∀ p ∈ st.secondActions, p.1 ∈ ALL_POSITIONS) →
    (∀ p ∈ (collectPreflop l st).firstActions, p.1 ∈ ALL_POSITIONS) ∧
    (∀ p ∈ (collectPreflop l st).secondActions, p.1 ∈ ALL_POSITIONS) := by
  intro l
  induction l with
  | nil => intro st h1 h2; exact ⟨h1, h2⟩
  | cons kv rest ih =>
    intro st h1 h2
    rcases kv with ⟨key, v⟩
    rw [collectPreflop]
    rcases hp : parsePositionKey key with _ | ⟨pos, isSecond⟩
    · simp only [hp]
      exact ih st h1 h2
    · have hpos : pos ∈ ALL_POSITIONS := parsePositionKey_mem hp
      simp only [hp]
      rcases v with s | e | _
      · exact ih st h1 h2
      · rcases e with ⟨oact, oamt, ocards⟩
        rcases oact with _ | act
        · exact ih st h1 h2
        · rcases isSecond with _ | _
          · refine ih _ ?_ h2
            intro p hmem
            rcases mem_setA hmem with h | h
            · rw [h]; exact hpos
            · exact h1 p h
          · refine ih _ h1 ?_
            intro p hmem
            rcases mem_setA hmem with h | h
            · rw [h]; exact hpos
            · exact h2 p h
      · exact ih st h1 h2

theorem preflopMaps_first (pf : StreetData) :
    (preflopMaps pf).firstActions =
      inferCalls (collectPreflop pf ⟨[], [], 1⟩).lastAmount
        (collectPreflop pf ⟨[], [], 1⟩).firstActions := rfl

theorem preflopMaps_second (pf : StreetData) :
    (preflopMaps pf).secondActions =
      inferCalls (collectPreflop pf ⟨[], [], 1⟩).lastAmount
        (collectPreflop pf ⟨[], [], 1⟩).secondActions := rfl

theorem preflopMaps_last (pf : StreetData) :
    (preflopMaps pf).lastAmount = (collectPreflop pf ⟨[], [], 1⟩).lastAmount := rfl

theorem getA_some_key_mem {m : ActMap} {amt : ℚ} {key : String} {d : ActionPair}
    (hkeys : ∀ p ∈ m, p.1 ∈ ALL_POSITIONS)
    (h : getA (inferCalls amt m) key = some d) : key ∈ ALL_POSITIONS := by
  rw [getA_inferCalls] at h
  rcases ho : getA m key with _ | d0
  · rw [ho] at h; simp at h
  · exact hkeys _ (getA_mem ho)

theorem getA_preflopMaps_first_mem {pf : StreetData} {hero : String} {d : ActionPair}
    (h : getA (preflopMaps pf).firstActions hero = some d) : hero ∈ ALL_POSITIONS := by
  rw [preflopMaps_first] at h
  exact getA_some_key_mem
    ((collectPreflop_keys pf ⟨[], [], 1⟩ (by simp) (by simp)).1) h

/-! ## Emission lemmas for the preflop reconstructor -/

/-- Shape of every event of the preflop first orbit: its position comes
from the traversed list and it is either a verbatim first-orbit entry or an
inferred Fold. -/
theorem preflopFirstOrbit_events (firstA : ActMap) (hasRaise : Bool) :
    ∀ (l folded : List String) (a : HandAction),
      a ∈ (preflopFirstOrbit firstA hasRaise l folded).1 →
      a.position ∈ l ∧ a.isBoard = false ∧ a.boardCards = none ∧
        ((∃ d, getA firstA a.position = some d ∧ a.action = d.action ∧
            a.amount = d.amount) ∨
          (a.action = "Fold" ∧ a.amount = 0)) := by
  intro l
  induction l with
  | nil => intro folded a h; simp [preflopFirstOrbit] at h
  | cons pos rest ih =>
    intro folded a h
    rw [preflopFirstOrbit] at h
    rcases hg : getA firstA pos with _ | d
    · simp only [hg] at h
      split_ifs at h with h1 h2
      · simp only [List.mem_cons] at h
        rcases h with rfl | h
        · exact ⟨List.mem_cons_self _ _, rfl, rfl, Or.inr ⟨rfl, rfl⟩⟩
        · obtain ⟨hm, hb, hc, hp⟩ := ih _ a h
          exact ⟨List.mem_cons_of_mem _ hm, hb, hc, hp⟩
      · simp only [List.mem_cons] at h
        rcases h with rfl | h
        · exact ⟨List.mem_cons_self _ _, rfl, rfl, Or.inr ⟨rfl, rfl⟩⟩
        · obtain ⟨hm, hb, hc, hp⟩ := ih _ a h
          exact ⟨List.mem_cons_of_mem _ hm, hb, hc, hp⟩
      · obtain ⟨hm, hb, hc, hp⟩ := ih _ a h
        exact ⟨List.mem_cons_of_mem _ hm, hb, hc, hp⟩
    · simp only [hg] at h
      simp only [List.mem_cons] at h
      rcases h with rfl | h
      · exact ⟨List.mem_cons_self _ _, rfl, rfl, Or.inl ⟨d, hg, rfl, rfl⟩⟩
      · obtain ⟨hm, hb, hc, hp⟩ := ih _ a h
        exact ⟨List.mem_cons_of_mem _ hm, hb, hc, hp⟩

theorem preflopFirstOrbit_folded (firstA : ActMap) (hasRaise : Bool) :
    ∀ (l folded : List String) (p : String),
      p ∈ (preflopFirstOrbit firstA hasRaise l folded).2 →
      p ∈ folded ∨ p ∈ l := by
  intro l
  induction l with
  | nil => intro folded p h; simp [preflopFirstOrbit] at h; exact Or.inl h
  | cons pos rest ih =>
    intro folded p h
    rw [preflopFirstOrbit] at h
    rcases hg : getA firstA pos with _ | d
    · simp only [hg] at h
      split_ifs at h with h1 h2
      · rcases ih _ p h with h' | h'
        · rcases mem_addSet.mp h' with h'' | rfl
          · exact Or.inl h''
          · exact Or.inr (List.mem_cons_self _ _)
        · exact Or.inr (List.mem_cons_of_mem _ h')
      · rcases ih _ p h with h' | h'
        · rcases mem_addSet.mp h' with h'' | rfl
          · exact Or.inl h''
          · exact Or.inr (List.mem_cons_self _ _)
        · exact Or.inr (List.mem_cons_of_mem _ h')
      · rcases ih _ p h with h' | h'
        · exact Or.inl h'
        · exact Or.inr (List.mem_cons_of_mem _ h')
    · simp only [hg] at h
      split_ifs at h with h1
      · rcases ih _ p h with h' | h'
        · rcases mem_addSet.mp h' with h'' | rfl
          · exact Or.inl h''
          · exact Or.inr (List.mem_cons_self _ _)
        · exact Or.inr (List.mem_cons_of_mem _ h')
      · rcases ih _ p h with h' | h'
        · exact Or.inl h'
        · exact Or.inr (List.mem_cons_of_mem _ h')

theorem preflopAfterHero_events (firstA : ActMap) :
    ∀ (l folded : List String) (a : HandAction),
      a ∈ (preflopAfterHero firstA l folded).1 →
      a.position ∈ l ∧ a.isBoard = false ∧ a.boardCards = none ∧
        ((∃ d, getA firstA a.position = some d ∧ a.action = d.action ∧
            a.amount = d.amount) ∨
          (a.action = "Fold" ∧ a.amount = 0)) := by
  intro l
  induction l with
  | nil => intro folded a h; simp [preflopAfterHero] at h
  | cons pos rest ih =>
    intro folded a h
    rw [preflopAfterHero] at h
    split_ifs at h with h0
    · obtain ⟨hm, hb, hc, hp⟩ := ih _ a h
      exact ⟨List.mem_cons_of_mem _ hm, hb, hc, hp⟩
    · rcases hg : getA firstA pos with _ | d
      · simp only [hg, List.mem_cons] at h
        rcases h with rfl | h
        · exact ⟨List.mem_cons_self _ _, rfl, rfl, Or.inr ⟨rfl, rfl⟩⟩
        · obtain ⟨hm, hb, hc, hp⟩ := ih _ a h
          exact ⟨List.mem_cons_of_mem _ hm, hb, hc, hp⟩
      · simp only [hg, List.mem_cons] at h
        rcases h with rfl | h
        · exact ⟨List.mem_cons_self _ _, rfl, rfl, Or.inl ⟨d, hg, rfl, rfl⟩⟩
        · obtain ⟨hm, hb, hc, hp⟩ := ih _ a h
          exact ⟨List.mem_cons_of_mem _ hm, hb, hc, hp⟩

theorem preflopAfterHero_folded (firstA : ActMap) :
    ∀ (l folded : List String) (p : String),
      p ∈ (preflopAfterHero firstA l folded).2 →
      p ∈ folded ∨ p ∈ l := by
  intro l
  induction l with
  | nil => intro folded p h; simp [preflopAfterHero] at h; exact Or.inl h
  | cons pos rest ih =>
    intro folded p h
    rw [preflopAfterHero] at h
    split_ifs at h with h0
    · rcases ih _ p h with h' | h'
      · exact Or.inl h'
      · exact Or.inr (List.mem_cons_of_mem _ h')
    · rcases hg : getA firstA pos with _ | d
      · simp only [hg] at h
        rcases ih _ p h with h' | h'
        · rcases mem_addSet.mp h' with h'' | rfl
          · exact Or.inl h''
          · exact Or.inr (List.mem_cons_self _ _)
        · exact Or.inr (List.mem_cons_of_mem _ h')
      · simp only [hg] at h
        split_ifs at h with h1
        · rcases ih _ p h with h' | h'
          · rcases mem_addSet.mp h' with h'' | rfl
            · exact Or.inl h''
            · exact Or.inr (List.mem_cons_self _ _)
          · exact Or.inr (List.mem_cons_of_mem _ h')
        · rcases ih _ p h with h' | h'
          · exact Or.inl h'
          · exact Or.inr (List.mem_cons_of_mem _ h')

/-- Shape of every event of the preflop second orbit: a verbatim
second-orbit entry, or an inferred Call at the final raise amount by the
original raiser. -/
theorem preflopSecondOrbit_events (secondA : ActMap) (hero : String) (ri : RaiseInfo) :
    ∀ (l folded : List String) (a : HandAction),
      a ∈ (preflopSecondOrbit secondA hero ri l folded).1 →
      a.position ∈ l ∧ a.isBoard = false ∧ a.boardCards = none ∧
        ((∃ d, getA secondA a.position = some d ∧ a.action = d.action ∧
            a.amount = d.amount) ∨
          (a.action = "Call" ∧ a.amount = ri.finalRaiseAmount ∧
            ri.originalRaiser = some a.position)) := by
  intro l
  induction l with
  | nil => intro folded a h; simp [preflopSecondOrbit] at h
  | cons pos rest ih =>
    intro folded a h
    rw [preflopSecondOrbit] at h
    by_cases h0 : pos ∈ folded
    · rw [if_pos h0] at h
      obtain ⟨hm, hb, hc, hp⟩ := ih _ a h
      exact ⟨List.mem_cons_of_mem _ hm, hb, hc, hp⟩
    · rw [if_neg h0] at h
      by_cases h1 : pos = hero
      · rw [if_pos h1] at h
        rcases hg : getA secondA hero with _ | hs
        · simp only [hg] at h
          split_ifs at h with h2
          · simp only [List.mem_singleton] at h
            subst h
            refine ⟨?_, rfl, rfl, Or.inr ⟨rfl, rfl, h2.2.1⟩⟩
            rw [h1]; exact List.mem_cons_self _ _
          · simp at h
        · simp only [hg, List.mem_singleton] at h
          subst h
          refine ⟨?_, rfl, rfl, Or.inl ⟨hs, hg, rfl, rfl⟩⟩
          rw [h1]; exact List.mem_cons_self _ _
      · rw [if_neg h1] at h
        rcases hg : getA secondA pos with _ | d
        · simp only [hg] at h
          split_ifs at h with h2
          · simp only [List.mem_cons] at h
            rcases h with rfl | h
            · exact ⟨List.mem_cons_self _ _, rfl, rfl,
                Or.inr ⟨rfl, rfl, h2.2.1⟩⟩
            · obtain ⟨hm, hb, hc, hp⟩ := ih _ a h
              exact ⟨List.mem_cons_of_mem _ hm, hb, hc, hp⟩
          · obtain ⟨hm, hb, hc, hp⟩ := ih _ a h
            exact ⟨List.mem_cons_of_mem _ hm, hb, hc, hp⟩
        · simp only [hg, List.mem_cons] at h
          rcases h with rfl | h
          · exact ⟨List.mem_cons_self _ _, rfl, rfl, Or.inl ⟨d, hg, rfl, rfl⟩⟩
          · obtain ⟨hm, hb, hc, hp⟩ := ih _ a h
            exact ⟨List.mem_cons_of_mem _ hm, hb, hc, hp⟩

theorem preflopSecondOrbit_folded (secondA : ActMap) (hero : String) (ri : RaiseInfo) :
    ∀ (l folded : List String) (p : String),
      p ∈ (preflopSecondOrbit secondA hero ri l folded).2 →
      p ∈ folded ∨ p ∈ l := by
  intro l
  induction l with
  | nil => intro folded p h; simp [preflopSecondOrbit] at h; exact Or.inl h
  | cons pos rest ih =>
    intro folded p h
    rw [preflopSecondOrbit] at h
    by_cases h0 : pos ∈ folded
    · rw [if_pos h0] at h
      rcases ih _ p h with h' | h'
      · exact Or.inl h'
      · exact Or.inr (List.mem_cons_of_mem _ h')
    · rw [if_neg h0] at h
      by_cases h1 : pos = hero
      · rw [if_pos h1] at h
        rcases hg : getA secondA hero with _ | hs
        · simp only [hg] at h
          split_ifs at h with h2 <;> exact Or.inl h
        · simp only [hg] at h
          exact Or.inl h
      · rw [if_neg h1] at h
        rcases hg : getA secondA pos with _ | d
        · simp only [hg] at h
          split_ifs at h with h2
          · rcases ih _ p h with h' | h'
            · exact Or.inl h'
            · exact Or.inr (List.mem_cons_of_mem _ h')
          · rcases ih _ p h with h' | h'
            · exact Or.inl h'
            · exact Or.inr (List.mem_cons_of_mem _ h')
        · simp only [hg] at h
          by_cases hf : d.action = "Fold"
          · rw [if_pos hf] at h
            rcases ih _ p h with h' | h'
            · rcases mem_addSet.mp h' with h'' | rfl
              · exact Or.inl h''
              · exact Or.inr (List.mem_cons_self _ _)
            · exact Or.inr (List.mem_cons_of_mem _ h')
          · rw [if_neg hf] at h
            rcases ih _ p h with h' | h'
            · exact Or.inl h'
            · exact Or.inr (List.mem_cons_of_mem _ h')

/-- The original raiser recorded by the raise scan always has a first-orbit
Raise entry. -/
theorem raiseScanAux_orig (firstA : ActMap) :
    ∀ (l : List String) (st : RaiseInfo),
      (∀ p, st.originalRaiser = some p →
        ∃ d, getA firstA p = some d ∧ d.action = "Raise") →
      ∀ p, (raiseScanAux firstA l st).originalRaiser = some p →
        ∃ d, getA firstA p = some d ∧ d.action = "Raise" := by
  intro l
  induction l with
  | nil => intro st hst p h; exact hst p h
  | cons pos rest ih =>
    intro st hst p h
    rw [raiseScanAux] at h
    rcases hg : getA firstA pos with _ | d
    · simp only [hg] at h
      exact ih st hst p h
    · simp only [hg] at h
      by_cases hr : d.action = "Raise"
      · rw [if_pos hr] at h
        refine ih _ ?_ p h
        intro q hq
        simp only at hq
        split_ifs at hq with hc
        · obtain rfl := Option.some.inj hq
          exact ⟨d, hg, hr⟩
        · exact hst q hq
      · rw [if_neg hr] at h
        exact ih st hst p h

theorem raiseScan_orig (firstA : ActMap) (lastRaise : ℚ) :
    ∀ p, (raiseScan firstA lastRaise).originalRaiser = some p →
      ∃ d, getA firstA p = some d ∧ d.action = "Raise" := by
  intro p h
  exact raiseScanAux_orig firstA PREFLOP_ORDER ⟨none, lastRaise, 0⟩
    (by intro q hq; simp at hq) p h

theorem mem_preflop_all {p : String} (h : p ∈ PREFLOP_ORDER) :
    p ∈ ALL_POSITIONS := by
  simp only [PREFLOP_ORDER, List.mem_cons, List.not_mem_nil, or_false] at h
  rcases h with rfl | rfl | rfl | rfl | rfl | rfl <;> decide

theorem mem_postflop_all {p : String} (h : p ∈ POSTFLOP_ORDER) :
    p ∈ ALL_POSITIONS := by
  simp only [POSTFLOP_ORDER, List.mem_cons, List.not_mem_nil, or_false] at h
  rcases h with rfl | rfl | rfl | rfl | rfl | rfl <;> decide

theorem mem_afterHeroList {hero p : String} (h : p ∈ afterHeroList hero) :
    p ∈ PREFLOP_ORDER := by
  unfold afterHeroList at h
  split at h
  · exact List.mem_of_mem_drop h
  · exact h

/-- Shape and provenance of every event in the preflop output: the two
posts, a verbatim (backfilled) first-orbit entry, an inferred Fold, a
verbatim second-orbit entry, or the inferred second-orbit Call by the
original raiser at the final raise amount. -/
theorem buildPreflopActions_shape (pf : StreetData) (hero : String) (a : HandAction)
    (h : a ∈ (buildPreflopActions pf hero).1) :
    a.isBoard = false ∧ a.boardCards = none ∧ a.position ∈ ALL_POSITIONS ∧
      (a = ⟨"SB", "Post", mkRat 1 2, false, none⟩ ∨ a = ⟨"BB", "Post", 1, false, none⟩ ∨
        (∃ d, getA (preflopMaps pf).firstActions a.position = some d ∧
          a.action = d.action ∧ a.amount = d.amount) ∨
        (a.action = "Fold" ∧ a.amount = 0) ∨
        (∃ d, getA (preflopMaps pf).secondActions a.position = some d ∧
          a.action = d.action ∧ a.amount = d.amount) ∨
        (a.action = "Call" ∧
          a.amount = (raiseScan (preflopMaps pf).firstActions
            (preflopMaps pf).lastAmount).finalRaiseAmount ∧
          (raiseScan (preflopMaps pf).firstActions
            (preflopMaps pf).lastAmount).originalRaiser = some a.position)) := by
  simp only [buildPreflopActions, List.mem_cons, List.mem_append] at h
  rcases h with rfl | h
  · exact ⟨rfl, rfl, by decide, Or.inl rfl⟩
  rcases h with rfl | h
  · exact ⟨rfl, rfl, by decide, Or.inr (Or.inl rfl)⟩
  rcases h with ((h | h) | h) | h
  · obtain ⟨hm, hb, hc, hp⟩ := preflopFirstOrbit_events _ _ _ _ _ h
    refine ⟨hb, hc, mem_preflop_all (mem_of_takeWhile hm), ?_⟩
    rcases hp with hp | hp
    · exact Or.inr (Or.inr (Or.inl hp))
    · exact Or.inr (Or.inr (Or.inr (Or.inl hp)))
  · rcases hg : getA (preflopMaps pf).firstActions hero with _ | d
    · simp only [hg] at h
      simp at h
    · simp only [hg, List.mem_singleton] at h
      subst h
      exact ⟨rfl, rfl, getA_preflopMaps_first_mem hg,
        Or.inr (Or.inr (Or.inl ⟨d, hg, rfl, rfl⟩))⟩
  · obtain ⟨hm, hb, hc, hp⟩ := preflopAfterHero_events _ _ _ _ h
    refine ⟨hb, hc, mem_preflop_all (mem_afterHeroList hm), ?_⟩
    rcases hp with hp | hp
    · exact Or.inr (Or.inr (Or.inl hp))
    · exact Or.inr (Or.inr (Or.inr (Or.inl hp)))
  · obtain ⟨hm, hb, hc, hp⟩ := preflopSecondOrbit_events _ _ _ _ _ _ h
    refine ⟨hb, hc, mem_preflop_all hm, ?_⟩
    rcases hp with hp | hp
    · exact Or.inr (Or.inr (Or.inr (Or.inr (Or.inl hp))))
    · exact Or.inr (Or.inr (Or.inr (Or.inr (Or.inr hp))))

/-- Every position folded by the preflop reconstructor is canonical. -/
theorem buildPreflopActions_folded (pf : StreetData) (hero : String) :
    ∀ p ∈ (buildPreflopActions pf hero).2, p ∈ ALL_POSITIONS := by
  intro p h
  simp only [buildPreflopActions] at h
  rcases preflopSecondOrbit_folded _ _ _ _ _ _ h with h | h
  · rcases preflopAfterHero_folded _ _ _ _ h with h | h
    · rcases preflopFirstOrbit_folded _ _ _ _ _ h with h | h
      · simp at h
      · exact mem_preflop_all (mem_of_takeWhile h)
    · exact mem_preflop_all (mem_afterHeroList h)
  · exact mem_preflop_all h

/-! ## Emission lemmas for the postflop reconstructor -/

/-- Shape of every event of the postflop first orbit: a verbatim
Bet/Raise/Check entry or an inferred Check. -/
theorem postflopFirstOrbit_events (firstA : ActMap) (hero : String)
    (aggIdx : Option Nat) :
    ∀ (l : List String) (i : Nat) (a : HandAction),
      a ∈ postflopFirstOrbit firstA hero aggIdx i l →
      a.position ∈ l ∧ a.isBoard = false ∧ a.boardCards = none ∧
        ((∃ d, getA firstA a.position = some d ∧ a.action = d.action ∧
            a.amount = d.amount ∧
            (d.action = "Bet" ∨ d.action = "Raise" ∨ d.action = "Check")) ∨
          (a.action = "Check" ∧ a.amount = 0)) := by
  rcases aggIdx with _ | j <;>
  · intro l
    induction l with
    | nil => intro i a h; simp [postflopFirstOrbit] at h
    | cons pos rest ih =>
      intro i a h
      rw [postflopFirstOrbit] at h
      by_cases hbrk : pos = hero ∧ getA firstA hero = none
      · rw [if_pos hbrk] at h
        simp at h
      · rw [if_neg hbrk] at h
        rcases hg : getA firstA pos with _ | d
        · simp only [hg] at h
          split_ifs at h with h1
          · simp only [List.mem_cons] at h
            rcases h with rfl | h
            · exact ⟨List.mem_cons_self _ _, rfl, rfl, Or.inr ⟨rfl, rfl⟩⟩
            · obtain ⟨hm, hb, hc, hp⟩ := ih _ a h
              exact ⟨List.mem_cons_of_mem _ hm, hb, hc, hp⟩
          · obtain ⟨hm, hb, hc, hp⟩ := ih _ a h
            exact ⟨List.mem_cons_of_mem _ hm, hb, hc, hp⟩
        · simp only [hg] at h
          by_cases hbr : d.action = "Bet" ∨ d.action = "Raise"
          · rw [if_pos hbr] at h
            simp only [List.mem_singleton] at h
            subst h
            refine ⟨List.mem_cons_self _ _, rfl, rfl,
              Or.inl ⟨d, hg, rfl, rfl, ?_⟩⟩
            rcases hbr with hbr | hbr
            · exact Or.inl hbr
            · exact Or.inr (Or.inl hbr)
          · rw [if_neg hbr] at h
            by_cases hck : d.action = "Check"
            · rw [if_pos hck] at h
              simp only [List.mem_cons] at h
              rcases h with rfl | h
              · exact ⟨List.mem_cons_self _ _, rfl, rfl,
                  Or.inl ⟨d, hg, rfl, rfl, Or.inr (Or.inr hck)⟩⟩
              · obtain ⟨hm, hb, hc, hp⟩ := ih _ a h
                exact ⟨List.mem_cons_of_mem _ hm, hb, hc, hp⟩
            · rw [if_neg hck] at h
              by_cases hcf : d.action = "Call" ∨ d.action = "Fold"
              · rw [if_pos hcf] at h
                first
                | (split_ifs at h with h2
                   · simp only [List.mem_cons] at h
                     rcases h with rfl | h
                     · exact ⟨List.mem_cons_self _ _, rfl, rfl, Or.inr ⟨rfl, rfl⟩⟩
                     · obtain ⟨hm, hb, hc, hp⟩ := ih _ a h
                       exact ⟨List.mem_cons_of_mem _ hm, hb, hc, hp⟩
                   · obtain ⟨hm, hb, hc, hp⟩ := ih _ a h
                     exact ⟨List.mem_cons_of_mem _ hm, hb, hc, hp⟩)
                | (obtain ⟨hm, hb, hc, hp⟩ := ih _ a h
                   exact ⟨List.mem_cons_of_mem _ hm, hb, hc, hp⟩)
              · rw [if_neg hcf] at h
                obtain ⟨hm, hb, hc, hp⟩ := ih _ a h
                exact ⟨List.mem_cons_of_mem _ hm, hb, hc, hp⟩

/-- Shape of every event of the after-aggressor pass: a verbatim
Call/Fold/Raise entry, or an inferred Call at the running bet amount for a
silent position. -/
theorem postflopAfterAgg_events (firstA : ActMap) (hero : String) (lastBet : ℚ) :
    ∀ (l : List String) (a : HandAction),
      a ∈ (postflopAfterAgg firstA hero lastBet l).1 →
      a.position ∈ l ∧ a.isBoard = false ∧ a.boardCards = none ∧
        ((∃ d, getA firstA a.position = some d ∧ a.action = d.action ∧
            a.amount = d.amount ∧
            (d.action = "Call" ∨ d.action = "Fold" ∨ d.action = "Raise")) ∨
          (getA firstA a.position = none ∧ a.action = "Call" ∧
            a.amount = lastBet)) := by
  intro l
  induction l with
  | nil => intro a h; simp [postflopAfterAgg] at h
  | cons pos rest ih =>
    intro a h
    rw [postflopAfterAgg] at h
    by_cases hbrk : pos = hero ∧ getA firstA hero = none
    · rw [if_pos hbrk] at h
      simp at h
    · rw [if_neg hbrk] at h
      have hstep : ∀ b, b ∈ (match getA firstA pos with
          | some d =>
            if d.action = "Call" ∨ d.action = "Fold" ∨ d.action = "Raise" then
              (([⟨pos, d.action, d.amount, false, none⟩] : List HandAction),
                if d.action = "Fold" then [pos] else ([] : List String))
            else ([], [])
          | none => ([⟨pos, "Call", lastBet, false, none⟩], [])).1 →
          b.position = pos ∧ b.isBoard = false ∧ b.boardCards = none ∧
            ((∃ d, getA firstA b.position = some d ∧ b.action = d.action ∧
                b.amount = d.amount ∧
                (d.action = "Call" ∨ d.action = "Fold" ∨ d.action = "Raise")) ∨
              (getA firstA b.position = none ∧ b.action = "Call" ∧
                b.amount = lastBet)) := by
        intro b hb
        rcases hg : getA firstA pos with _ | d
        · simp only [hg, List.mem_singleton] at hb
          subst hb
          exact ⟨rfl, rfl, rfl, Or.inr ⟨hg, rfl, rfl⟩⟩
        · simp only [hg] at hb
          by_cases h1 : d.action = "Call" ∨ d.action = "Fold" ∨ d.action = "Raise"
          · rw [if_pos h1] at hb
            simp only [List.mem_singleton] at hb
            subst hb
            exact ⟨rfl, rfl, rfl, Or.inl ⟨d, hg, rfl, rfl, h1⟩⟩
          · rw [if_neg h1] at hb
            simp at hb
      by_cases hh : pos = hero
      · rw [if_pos hh] at h
        obtain ⟨hpos, hb, hc, hp⟩ := hstep a h
        exact ⟨hpos ▸ List.mem_cons_self _ _, hb, hc, hp⟩
      · rw [if_neg hh] at h
        simp only [List.mem_append] at h
        rcases h with h | h
        · obtain ⟨hpos, hb, hc, hp⟩ := hstep a h
          exact ⟨hpos ▸ List.mem_cons_self _ _, hb, hc, hp⟩
        · obtain ⟨hm, hb, hc, hp⟩ := ih a h
          exact ⟨List.mem_cons_of_mem _ hm, hb, hc, hp⟩

theorem postflopAfterAgg_folded (firstA : ActMap) (hero : String) (lastBet : ℚ) :
    ∀ (l : List String) (p : String),
      p ∈ (postflopAfterAgg firstA hero lastBet l).2 → p ∈ l := by
  intro l
  induction l with
  | nil => intro p h; simp [postflopAfterAgg] at h
  | cons pos rest ih =>
    intro p h
    rw [postflopAfterAgg] at h
    by_cases hbrk : pos = hero ∧ getA firstA hero = none
    · rw [if_pos hbrk] at h
      simp at h
    · rw [if_neg hbrk] at h
      have hstep : ∀ q, q ∈ (match getA firstA pos with
          | some d =>
            if d.action = "Call" ∨ d.action = "Fold" ∨ d.action = "Raise" then
              (([⟨pos, d.action, d.amount, false, none⟩] : List HandAction),
                if d.action = "Fold" then [pos] else ([] : List String))
            else ([], [])
          | none => ([⟨pos, "Call", lastBet, false, none⟩], [])).2 → q = pos := by
        intro q hq
        rcases hg : getA firstA pos with _ | d
        · simp only [hg] at hq
          simp at hq
        · simp only [hg] at hq
          by_cases h1 : d.action = "Call" ∨ d.action = "Fold" ∨ d.action = "Raise"
          · rw [if_pos h1] at hq
            by_cases h2 : d.action = "Fold"
            · rw [if_pos h2] at hq
              simpa using hq
            · rw [if_neg h2] at hq
              simp at hq
          · rw [if_neg h1] at hq
            simp at hq
      by_cases hh : pos = hero
      · rw [if_pos hh] at h
        exact (hstep p h) ▸ List.mem_cons_self _ _
      · rw [if_neg hh] at h
        simp only [List.mem_append] at h
        rcases h with h | h
        · exact (hstep p h) ▸ List.mem_cons_self _ _
        · exact List.mem_cons_of_mem _ (ih p h)

/-- Shape of every event of the before-aggressor pass: a verbatim
second-orbit entry or a verbatim first-orbit Call/Fold/Raise entry. -/
theorem postflopBeforeAgg_events (firstA secondA : ActMap) (hero : String) :
    ∀ (l : List String) (a : HandAction),
      a ∈ (postflopBeforeAgg firstA secondA hero l).1 →
      a.position ∈ l ∧ a.isBoard = false ∧ a.boardCards = none ∧
        ((∃ d, getA secondA a.position = some d ∧ a.action = d.action ∧
            a.amount = d.amount) ∨
          (∃ d, getA firstA a.position = some d ∧ a.action = d.action ∧
            a.amount = d.amount ∧
            (d.action = "Call" ∨ d.action = "Fold" ∨ d.action = "Raise"))) := by
  intro l
  induction l with
  | nil => intro a h; simp [postflopBeforeAgg] at h
  | cons pos rest ih =>
    intro a h
    rw [postflopBeforeAgg] at h
    by_cases hbrk : pos = hero ∧ getA secondA hero = none ∧
        firstIsCall firstA hero = false
    · rw [if_pos hbrk] at h
      simp at h
    · rw [if_neg hbrk] at h
      have hstep : ∀ b, b ∈ (match getA secondA pos with
          | some d2 =>
            (([⟨pos, d2.action, d2.amount, false, none⟩] : List HandAction),
              if d2.action = "Fold" then [pos] else ([] : List String))
          | none =>
            match getA firstA pos with
            | some d =>
              if d.action = "Call" ∨ d.action = "Fold" ∨ d.action = "Raise" then
                (([⟨pos, d.action, d.amount, false, none⟩] : List HandAction),
                  if d.action = "Fold" then [pos] else ([] : List String))
              else ([], [])
            | none => ([], [])).1 →
          b.position = pos ∧ b.isBoard = false ∧ b.boardCards = none ∧
            ((∃ d, getA secondA b.position = some d ∧ b.action = d.action ∧
                b.amount = d.amount) ∨
              (∃ d, getA firstA b.position = some d ∧ b.action = d.action ∧
                b.amount = d.amount ∧
                (d.action = "Call" ∨ d.action = "Fold" ∨ d.action = "Raise"))) := by
        intro b hb
        rcases hg2 : getA secondA pos with _ | d2
        · simp only [hg2] at hb
          rcases hg : getA firstA pos with _ | d
          · simp only [hg] at hb
            simp at hb
          · simp only [hg] at hb
            by_cases h1 : d.action = "Call" ∨ d.action = "Fold" ∨ d.action = "Raise"
            · rw [if_pos h1] at hb
              simp only [List.mem_singleton] at hb
              subst hb
              exact ⟨rfl, rfl, rfl, Or.inr ⟨d, hg, rfl, rfl, h1⟩⟩
            · rw [if_neg h1] at hb
              simp at hb
        · simp only [hg2, List.mem_singleton] at hb
          subst hb
          exact ⟨rfl, rfl, rfl, Or.inl ⟨d2, hg2, rfl, rfl⟩⟩
      by_cases hh : pos = hero
      · rw [if_pos hh] at h
        obtain ⟨hpos, hb, hc, hp⟩ := hstep a h
        exact ⟨hpos ▸ List.mem_cons_self _ _, hb, hc, hp⟩
      · rw [if_neg hh] at h
        simp only [List.mem_append] at h
        rcases h with h | h
        · obtain ⟨hpos, hb, hc, hp⟩ := hstep a h
          exact ⟨hpos ▸ List.mem_cons_self _ _, hb, hc, hp⟩
        · obtain ⟨hm, hb, hc, hp⟩ := ih a h
          exact ⟨List.mem_cons_of_mem _ hm, hb, hc, hp⟩

theorem postflopBeforeAgg_folded (firstA secondA : ActMap) (hero : String) :
    ∀ (l : List String) (p : String),
      p ∈ (postflopBeforeAgg firstA secondA hero l).2 → p ∈ l := by
  intro l
  induction l with
  | nil => intro p h; simp [postflopBeforeAgg] at h
  | cons pos rest ih =>
    intro p h
    rw [postflopBeforeAgg] at h
    by_cases hbrk : pos = hero ∧ getA secondA hero = none ∧
        firstIsCall firstA hero = false
    · rw [if_pos hbrk] at h
      simp at h
    · rw [if_neg hbrk] at h
      have hstep : ∀ q, q ∈ (match getA secondA pos with
          | some d2 =>
            (([⟨pos, d2.action, d2.amount, false, none⟩] : List HandAction),
              if d2.action = "Fold" then [pos] else ([] : List String))
          | none =>
            match getA firstA pos with
            | some d =>
              if d.action = "Call" ∨ d.action = "Fold" ∨ d.action = "Raise" then
                (([⟨pos, d.action, d.amount, false, none⟩] : List HandAction),
                  if d.action = "Fold" then [pos] else ([] : List String))
              else ([], [])
            | none => ([], [])).2 → q = pos := by
        intro q hq
        rcases hg2 : getA secondA pos with _ | d2
        · simp only [hg2] at hq
          rcases hg : getA firstA pos with _ | d
          · simp only [hg] at hq
            simp at hq
          · simp only [hg] at hq
            by_cases h1 : d.action = "Call" ∨ d.action = "Fold" ∨ d.action = "Raise"
            · rw [if_pos h1] at hq
              by_cases h2 : d.action = "Fold"
              · rw [if_pos h2] at hq
                simpa using hq
              · rw [if_neg h2] at hq
                simp at hq
            · rw [if_neg h1] at hq
              simp at hq
        · simp only [hg2] at hq
          by_cases h2 : d2.action = "Fold"
          · rw [if_pos h2] at hq
            simpa using hq
          · rw [if_neg h2] at hq
            simp at hq
      by_cases hh : pos = hero
      · rw [if_pos hh] at h
        exact (hstep p h) ▸ List.mem_cons_self _ _
      · rw [if_neg hh] at h
        simp only [List.mem_append] at h
        rcases h with h | h
        · exact (hstep p h) ▸ List.mem_cons_self _ _
        · exact List.mem_cons_of_mem _ (ih p h)

theorem mem_activePositions {folded : List String} {p : String} :
    p ∈ activePositions folded ↔ p ∈ POSTFLOP_ORDER ∧ p ∉ folded := by
  unfold activePositions
  rw [List.mem_filter]
  simp

theorem activePositions_nodup (folded : List String) :
    (activePositions folded).Nodup :=
  List.Nodup.filter _ (by decide)

theorem postflopMaps_last (sd : StreetData) :
    (postflopMaps sd).lastAmount = (collectPostflop sd ⟨[], [], 0⟩).lastAmount := by
  by_cases h : 0 < (collectPostflop sd ⟨[], [], 0⟩).lastAmount <;>
    simp [postflopMaps, h]

/-- Shape of every event and every new fold of the postflop reconstructor:
positions come from the active list. -/
theorem buildPostflopActions_events (sd : StreetData) (hero : String)
    (folded : List String) :
    ∀ a ∈ (buildPostflopActions sd hero folded).1,
      a.position ∈ activePositions folded ∧ a.isBoard = false ∧
        a.boardCards = none := by
  intro a h
  rw [buildPostflopActions] at h
  rcases hagg : firstAggIdx (postflopMaps sd).firstActions (activePositions folded)
    with _ | j
  · simp only [hagg] at h
    obtain ⟨hm, hb, hc, _⟩ := postflopFirstOrbit_events _ _ _ _ _ _ h
    exact ⟨hm, hb, hc⟩
  · simp only [hagg, List.mem_append] at h
    rcases h with (h | h) | h
    · obtain ⟨hm, hb, hc, _⟩ := postflopFirstOrbit_events _ _ _ _ _ _ h
      exact ⟨hm, hb, hc⟩
    · obtain ⟨hm, hb, hc, _⟩ := postflopAfterAgg_events _ _ _ _ _ h
      exact ⟨List.mem_of_mem_drop hm, hb, hc⟩
    · obtain ⟨hm, hb, hc, _⟩ := postflopBeforeAgg_events _ _ _ _ _ h
      exact ⟨List.mem_of_mem_take hm, hb, hc⟩

theorem buildPostflopActions_folded (sd : StreetData) (hero : String)
    (folded : List String) :
    ∀ p ∈ (buildPostflopActions sd hero folded).2,
      p ∈ activePositions folded := by
  intro p h
  rw [buildPostflopActions] at h
  rcases hagg : firstAggIdx (postflopMaps sd).firstActions (activePositions folded)
    with _ | j
  · simp only [hagg] at h
    simp at h
  · simp only [hagg, List.mem_append] at h
    rcases h with h | h
    · exact List.mem_of_mem_drop (postflopAfterAgg_folded _ _ _ _ _ h)
    · exact List.mem_of_mem_take (postflopBeforeAgg_folded _ _ _ _ _ h)

theorem firstAggIdxAux_le (firstA : ActMap) :
    ∀ (l : List String) (i j : Nat),
      firstAggIdxAux firstA i l = some j → i ≤ j := by
  intro l
  induction l with
  | nil => intro i j h; simp [firstAggIdxAux] at h
  | cons pos rest ih =>
    intro i j h
    rw [firstAggIdxAux] at h
    split_ifs at h with h1
    · obtain rfl := Option.some.inj h
      exact Nat.le_refl _
    · exact Nat.le_of_succ_le (ih (i + 1) j h)

/-- The postflop first orbit never emits a position beyond the first
aggressor: traversal stops at the aggressor's Bet/Raise entry. -/
theorem postflopFirstOrbit_take (firstA : ActMap) (hero : String) :
    ∀ (l : List String) (i j : Nat),
      firstAggIdxAux firstA i l = some j →
      ∀ a ∈ postflopFirstOrbit firstA hero (some j) i l,
        a.position ∈ l.take (j + 1 - i) := by
  intro l
  induction l with
  | nil => intro i j _ a h; simp [postflopFirstOrbit] at h
  | cons pos rest ih =>
    intro i j hagg a h
    rw [firstAggIdxAux] at hagg
    rw [postflopFirstOrbit] at h
    by_cases hisagg : isAggEntry firstA pos = true
    · rw [if_pos hisagg] at hagg
      obtain rfl := Option.some.inj hagg
      have htake : (pos :: rest).take (i + 1 - i) = [pos] := by
        simp [Nat.add_sub_cancel_left]
      rw [htake]
      unfold isAggEntry at hisagg
      rcases hg : getA firstA pos with _ | d
      · rw [hg] at hisagg; simp at hisagg
      · rw [hg] at hisagg
        have hbr : d.action = "Bet" ∨ d.action = "Raise" := by
          rcases Bool.or_eq_true_iff.mp hisagg with h' | h'
          · exact Or.inl (eq_of_beq h')
          · exact Or.inr (eq_of_beq h')
        by_cases hbrk : pos = hero ∧ getA firstA hero = none
        · rw [if_pos hbrk] at h
          simp at h
        · rw [if_neg hbrk] at h
          simp only [hg] at h
          rw [if_pos hbr] at h
          simp only [List.mem_singleton] at h
          subst h
          exact List.mem_cons_self _ _
    · rw [if_neg hisagg] at hagg
      have hij : i + 1 ≤ j := firstAggIdxAux_le firstA rest (i + 1) j hagg
      have htake : (pos :: rest).take (j + 1 - i) = pos :: rest.take (j - i) := by
        have : j + 1 - i = (j - i) + 1 := by omega
        rw [this, List.take_succ_cons]
      rw [htake]
      have hrtake : rest.take (j + 1 - (i + 1)) = rest.take (j - i) := by
        congr 1
        omega
      by_cases hbrk : pos = hero ∧ getA firstA hero = none
      · rw [if_pos hbrk] at h
        simp at h
      · rw [if_neg hbrk] at h
        rcases hg : getA firstA pos with _ | d
        · simp only [hg] at h
          split_ifs at h with h1
          · simp only [List.mem_cons] at h
            rcases h with rfl | h
            · exact List.mem_cons_self _ _
            · exact List.mem_cons_of_mem _ (hrtake ▸ ih (i + 1) j hagg a h)
          · exact List.mem_cons_of_mem _ (hrtake ▸ ih (i + 1) j hagg a h)
        · have hnbr : ¬(d.action = "Bet" ∨ d.action = "Raise") := by
            unfold isAggEntry at hisagg
            rw [hg] at hisagg
            intro hcon
            apply hisagg
            rcases hcon with h' | h'
            · exact Bool.or_eq_true_iff.mpr (Or.inl (beq_iff_eq.mpr h'))
            · exact Bool.or_eq_true_iff.mpr (Or.inr (beq_iff_eq.mpr h'))
          simp only [hg] at h
          rw [if_neg hnbr] at h
          by_cases hck : d.action = "Check"
          · rw [if_pos hck] at h
            simp only [List.mem_cons] at h
            rcases h with rfl | h
            · exact List.mem_cons_self _ _
            · exact List.mem_cons_of_mem _ (hrtake ▸ ih (i + 1) j hagg a h)
          · rw [if_neg hck] at h
            by_cases hcf : d.action = "Call" ∨ d.action = "Fold"
            · rw [if_pos hcf] at h
              split_ifs at h with h2
              · simp only [List.mem_cons] at h
                rcases h with rfl | h
                · exact List.mem_cons_self _ _
                · exact List.mem_cons_of_mem _ (hrtake ▸ ih (i + 1) j hagg a h)
              · exact List.mem_cons_of_mem _ (hrtake ▸ ih (i + 1) j hagg a h)
            · rw [if_neg hcf] at h
              exact List.mem_cons_of_mem _ (hrtake ▸ ih (i + 1) j hagg a h)

/-! ## Lemmas about the orchestrator -/

theorem streetStep_folded_mono (hero : String) (folded : List String)
    (sv : StreetVal) (len : Nat) :
    ∀ p ∈ folded, p ∈ (streetStep hero folded sv len).2 := by
  intro p h
  unfold streetStep
  rcases hsv : streetObj sv with _ | sd
  · exact h
  · exact mem_foldl_addSet.mpr (Or.inl h)

theorem streetStep_folded_all (hero : String) (folded : List String)
    (sv : StreetVal) (len : Nat) :
    ∀ p ∈ (streetStep hero folded sv len).2, p ∈ folded ∨ p ∈ POSTFLOP_ORDER := by
  intro p h
  unfold streetStep at h
  rcases hsv : streetObj sv with _ | sd
  · rw [hsv] at h
    exact Or.inl h
  · rw [hsv] at h
    simp only at h
    rcases mem_foldl_addSet.mp h with h | h
    · exact Or.inl h
    · exact Or.inr
        (mem_activePositions.mp (buildPostflopActions_folded sd hero folded p h)).1

theorem streetStep_events (hero : String) (folded : List String)
    (sv : StreetVal) (len : Nat) :
    ∀ a ∈ (streetStep hero folded sv len).1,
      (a.isBoard = true ∧ a.position = "") ∨
        (a.isBoard = false ∧ a.position ∈ activePositions folded) := by
  intro a h
  unfold streetStep at h
  rcases hsv : streetObj sv with _ | sd
  · rw [hsv] at h
    simp at h
  · rw [hsv] at h
    simp only [List.mem_append] at h
    rcases h with h | h
    · rcases hec : extractBoardCards sd len with _ | c
      · rw [hec] at h
        simp at h
      · simp only [hec] at h
        split_ifs at h with h1
        · simp only [List.mem_singleton] at h
          subst h
          exact Or.inl ⟨rfl, rfl⟩
        · simp at h
    · obtain ⟨hm, hb, _⟩ := buildPostflopActions_events sd hero folded a h
      exact Or.inr ⟨hb, hm⟩

theorem runStreets_append (hero : String) :
    ∀ (ss : List (StreetVal × Nat)) (q : List HandAction) (f : List String),
      runStreets hero ss (q, f) =
        (q ++ (runStreets hero ss ([], f)).1, (runStreets hero ss ([], f)).2) := by
  intro ss
  induction ss with
  | nil => intro q f; simp [runStreets]
  | cons svl rest ih =>
    intro q f
    rcases svl with ⟨sv, len⟩
    rw [runStreets, runStreets]
    dsimp only
    rw [ih (q ++ (streetStep hero f sv len).1) (streetStep hero f sv len).2,
      ih ([] ++ (streetStep hero f sv len).1) (streetStep hero f sv len).2]
    simp

/-- Any per-event property established by every street step and by the
starting queue holds of the whole street loop's output. -/
theorem runStreets_events (hero : String) (P : HandAction → Prop)
    (hstep : ∀ folded sv len, ∀ a ∈ (streetStep hero folded sv len).1, P a) :
    ∀ (ss : List (StreetVal × Nat)) (st : List HandAction × List String),
      (∀ a ∈ st.1, P a) → ∀ a ∈ (runStreets hero ss st).1, P a := by
  intro ss
  induction ss with
  | nil => intro st hst a h; exact hst a h
  | cons svl rest ih =>
    intro st hst a h
    rcases svl with ⟨sv, len⟩
    rw [runStreets] at h
    refine ih _ ?_ a h
    intro b hb
    simp only [List.mem_append] at hb
    rcases hb with hb | hb
    · exact hst b hb
    · exact hstep _ _ _ b hb

/-! ## Lemmas for the board-card extractor, the label normalizer and the
preflop raise-amount tracking -/

theorem length_pos_iff_ne_empty (s : String) : 0 < s.length ↔ s ≠ "" := by
  rcases s with ⟨data⟩
  constructor
  · intro h hcon
    rw [show ("" : String) = ⟨[]⟩ from rfl] at hcon
    injection hcon with h2
    subst h2
    simp [String.length] at h
  · intro h
    rcases hd : data with _ | ⟨c, cs⟩
    · subst hd
      exact absurd rfl h
    · subst hd
      simp [String.length]

theorem scanValuesForCards_eq_nested : ∀ (sd : StreetData) (minLen : Nat),
    scanValuesForCards minLen (sd.map Prod.snd) = nestedCardsScan sd minLen := by
  intro sd
  induction sd with
  | nil => intro minLen; rfl
  | cons kv rest ih =>
    intro minLen
    rcases kv with ⟨k, v⟩
    have ih' := ih minLen
    rcases v with s | ⟨ea, eam, ec⟩ | _
    · simpa [nestedCardsScan, List.findSome?_cons, scanValuesForCards] using ih'
    · rcases ec with _ | c
      · simpa [nestedCardsScan, List.findSome?_cons, scanValuesForCards] using ih'
      · by_cases hl : minLen ≤ c.length
        · simp [nestedCardsScan, List.findSome?_cons, scanValuesForCards, hl]
        · simpa [nestedCardsScan, List.findSome?_cons, scanValuesForCards, hl]
            using ih'
    · simpa [nestedCardsScan, List.findSome?_cons, scanValuesForCards] using ih'

theorem betTail_iff (l : List Char) :
    betTail l = true ↔
      ∃ b e t, l = [b, e, t] ∧ b.toLower = 'b' ∧ e.toLower = 'e' ∧
        t.toLower = 't' := by
  rcases l with _ | ⟨b, _ | ⟨e, _ | ⟨t, _ | ⟨x, rest⟩⟩⟩⟩ <;> simp [betTail]
  constructor
  · rintro ⟨⟨hb, he⟩, ht⟩
    exact ⟨b, e, t, ⟨rfl, rfl, rfl⟩, hb, he, ht⟩
  · rintro ⟨b1, e1, t1, ⟨rfl, rfl, rfl⟩, hb, he, ht⟩
    exact ⟨⟨hb, he⟩, ht⟩

theorem is345Bet_iff (s : String) : is345Bet s = true ↔ Pattern345 s := by
  unfold is345Bet Pattern345
  rcases hd : s.data with _ | ⟨c, rest⟩
  · simp
  · constructor
    · intro h
      obtain ⟨h1, h2⟩ := Bool.and_eq_true_iff.mp h
      simp only [Bool.or_eq_true_iff, beq_iff_eq] at h1
      rcases Bool.or_eq_true_iff.mp h2 with h' | h'
      · obtain ⟨b, e, t, rfl, hb, he, ht⟩ := (betTail_iff rest).mp h'
        exact ⟨c, [], [b, e, t], by simp, or_assoc.mp h1, Or.inl rfl, b, e, t,
          rfl, hb, he, ht⟩
      · split at h'
        · rename_i r2 hList
          obtain ⟨b, e, t, rfl, hb, he, ht⟩ := (betTail_iff hList).mp h'
          exact ⟨c, ['-'], [b, e, t], by simp, or_assoc.mp h1, Or.inr rfl, b, e,
            t, rfl, hb, he, ht⟩
        · simp at h'
    · rintro ⟨c', mid, tl, heq, hc, hmid, b, e, t, rfl, hb, he, ht⟩
      injection heq with hce hrest
      subst hce
      subst hrest
      refine Bool.and_eq_true_iff.mpr ⟨?_, ?_⟩
      · simp only [Bool.or_eq_true_iff, beq_iff_eq]
        exact or_assoc.mpr hc
      · rcases hmid with rfl | rfl
        · refine Bool.or_eq_true_iff.mpr (Or.inl ?_)
          rw [List.nil_append]
          exact (betTail_iff _).mpr ⟨b, e, t, rfl, hb, he, ht⟩
        · refine Bool.or_eq_true_iff.mpr (Or.inr ?_)
          rw [List.cons_append, List.nil_append]
          exact (betTail_iff _).mpr ⟨b, e, t, rfl, hb, he, ht⟩

theorem collectPreflop_lastAmount : ∀ (l : StreetData) (st : StreetMaps),
    (collectPreflop l st).lastAmount =
      (l.filterMap entryRaiseAmount).getLastD st.lastAmount := by
  intro l
  induction l with
  | nil => intro st; rfl
  | cons kv rest ih =>
    intro st
    rcases kv with ⟨key, v⟩
    rw [collectPreflop, List.filterMap_cons]
    rcases hp : parsePositionKey key with _ | ⟨pos, isSecond⟩
    · have hf : entryRaiseAmount (key, v) = none := by
        simp [entryRaiseAmount, hp]
      simp only [hp, hf]
      exact ih st
    · rcases v with s | e | _
      · have hf : entryRaiseAmount (key, JsVal.str s) = none := by
          simp [entryRaiseAmount, hp]
        simp only [hp, hf]
        exact ih st
      · rcases ha : e.action with _ | act
        · have hf : entryRaiseAmount (key, JsVal.obj e) = none := by
            simp [entryRaiseAmount, hp, ha]
          simp only [hp, ha, hf]
          exact ih st
        · by_cases hcond : normalizeAction act = "Raise" ∧ 0 < e.amount.getD 0
          · have hf : entryRaiseAmount (key, JsVal.obj e) =
                some (e.amount.getD 0) := by
              simp [entryRaiseAmount, hp, ha, hcond]
            simp only [hp, ha, hf]
            rw [List.getLastD_cons]
            rcases isSecond with _ | _
            · rw [ih]
              simp [hcond]
            · rw [ih]
              simp [hcond]
          · have hf : entryRaiseAmount (key, JsVal.obj e) = none := by
              simp [entryRaiseAmount, hp, ha, hcond]
            simp only [hp, ha, hf]
            rcases isSecond with _ | _
            · rw [ih]
              simp [hcond]
            · rw [ih]
              simp [hcond]
      · have hf : entryRaiseAmount (key, JsVal.other) = none := by
          simp [entryRaiseAmount, hp]
        simp only [hp, hf]
        exact ih st

/-! ## The claims -/

theorem buildPreflopActions_posts (pf : StreetData) (hero : String) :
    ∃ rest f, buildPreflopActions pf hero =
      (⟨"SB", "Post", mkRat 1 2, false, none⟩ :: ⟨"BB", "Post", 1, false, none⟩ :: rest,
        f) :=
  ⟨_, _, rfl⟩

/-- Claim C1, as frozen, is false: when the preflop street is absent the
orchestrator skips the preflop reconstructor entirely, so no Post events
are emitted at all (here the queue is empty). -/
theorem C1_counterexample :
    ¬ ((buildActionQueue ⟨StreetVal.absent, StreetVal.absent, StreetVal.absent,
        StreetVal.absent⟩ "BB").take 2 =
      [⟨"SB", "Post", mkRat 1 2, false, none⟩, ⟨"BB", "Post", 1, false, none⟩]) := by
  decide

/-- Claim C1 (amended): for every input whose preflop street is present and
is an object — including the empty object — and every hero, the first two
events of buildActionQueue are exactly Post SB 0.5 then Post BB 1.0. -/
theorem C1_first_two_posts (h : HandInput) (hero : String) (pf : StreetData)
    (hpre : h.preflop = StreetVal.obj pf) :
    (buildActionQueue h hero).take 2 =
      [⟨"SB", "Post", mkRat 1 2, false, none⟩, ⟨"BB", "Post", 1, false, none⟩] := by
  obtain ⟨rest, f, hb⟩ := buildPreflopActions_posts pf hero
  unfold buildActionQueue
  rw [hpre]
  show ((runStreets hero [(h.flop, 6), (h.turn, 2), (h.river, 2)]
      (buildPreflopActions pf hero)).1).take 2 = _
  rw [hb, runStreets_append]
  simp

/-- Witness for C1: a concrete input with an empty preflop object. -/
theorem C1_witness :
    (⟨StreetVal.obj [], StreetVal.absent, StreetVal.absent, StreetVal.absent⟩ :
        HandInput).preflop = StreetVal.obj [] ∧
    (buildActionQueue ⟨StreetVal.obj [], StreetVal.absent, StreetVal.absent,
        StreetVal.absent⟩ "BB").take 2 =
      [⟨"SB", "Post", mkRat 1 2, false, none⟩, ⟨"BB", "Post", 1, false, none⟩] :=
  ⟨rfl, C1_first_two_posts _ "BB" [] rfl⟩

/-- Claim C2: across the orchestrator's street loop the folded set only
grows, and no event emitted for a street (or any later street) carries a
position that was already folded when that street began. -/
theorem C2_folded_monotone (hero : String) (streets : List (StreetVal × Nat))
    (folded : List String) (hsub : ∀ p ∈ folded, p ∈ ALL_POSITIONS) :
    (∀ p ∈ folded, p ∈ (runStreets hero streets ([], folded)).2) ∧
    (∀ a ∈ (runStreets hero streets ([], folded)).1, a.position ∉ folded) := by
  induction streets generalizing folded with
  | nil =>
    refine ⟨fun p hp => hp, ?_⟩
    intro a ha
    simp [runStreets] at ha
  | cons svl rest ih =>
    rcases svl with ⟨sv, len⟩
    have hmono := streetStep_folded_mono hero folded sv len
    have hall : ∀ p ∈ (streetStep hero folded sv len).2, p ∈ ALL_POSITIONS := by
      intro p hp
      rcases streetStep_folded_all hero folded sv len p hp with h | h
      · exact hsub p h
      · exact mem_postflop_all h
    obtain ⟨ih1, ih2⟩ := ih (streetStep hero folded sv len).2 hall
    constructor
    · intro p hp
      rw [runStreets]
      dsimp only
      rw [runStreets_append]
      exact ih1 p (hmono p hp)
    · intro a ha
      rw [runStreets] at ha
      dsimp only at ha
      rw [runStreets_append] at ha
      simp only [List.nil_append, List.mem_append] at ha
      rcases ha with ha | ha
      · rcases streetStep_events hero folded sv len a ha with ⟨_, hpos⟩ | ⟨_, hpos⟩
        · rw [hpos]
          intro hcon
          have := hsub _ hcon
          simp [ALL_POSITIONS] at this
        · exact (mem_activePositions.mp hpos).2
      · intro hcon
        exact ih2 a ha (hmono _ hcon)

/-- Witness for C2 at a concrete folded set and street list. -/
theorem C2_witness :
    (∀ p ∈ (["UTG"] : List String), p ∈ ALL_POSITIONS) ∧
    ((∀ p ∈ (["UTG"] : List String),
        p ∈ (runStreets "BB" [(StreetVal.obj [], 6)] ([], ["UTG"])).2) ∧
      (∀ a ∈ (runStreets "BB" [(StreetVal.obj [], 6)] ([], ["UTG"])).1,
        a.position ∉ (["UTG"] : List String))) :=
  ⟨by decide, C2_folded_monotone "BB" [(StreetVal.obj [], 6)] ["UTG"] (by decide)⟩

/-- Claim C4, as frozen, is false: on the empty preflop map with hero BB the
reconstructor emits inferred Folds for the four silent non-blind seats
after the two posts, not the posts alone. -/
theorem C4_counterexample :
    ¬ ((buildPreflopActions ([] : StreetData) "BB").1 =
      [⟨"SB", "Post", mkRat 1 2, false, none⟩, ⟨"BB", "Post", 1, false, none⟩]) := by
  decide

/-- Claim C4 (amended): on the empty preflop map with hero BB the output is
exactly Post SB 0.5, Post BB 1.0, then inferred Folds for UTG, HJ, CO and
BTN. -/
theorem C4_empty_preflop_hero_bb :
    (buildPreflopActions ([] : StreetData) "BB").1 =
      [⟨"SB", "Post", mkRat 1 2, false, none⟩, ⟨"BB", "Post", 1, false, none⟩,
       ⟨"UTG", "Fold", 0, false, none⟩, ⟨"HJ", "Fold", 0, false, none⟩,
       ⟨"CO", "Fold", 0, false, none⟩, ⟨"BTN", "Fold", 0, false, none⟩] := by
  decide

/-- Claim C9: scenario B reconstructs exactly as the spec lists it. -/
theorem C9_single_raise_hero_calls :
    (buildPreflopActions [("BTN", JsVal.obj ⟨some "Raise", some 3, none⟩),
        ("BB", JsVal.obj ⟨some "Call", none, none⟩)] "BB").1 =
      [⟨"SB", "Post", mkRat 1 2, false, none⟩, ⟨"BB", "Post", 1, false, none⟩,
       ⟨"UTG", "Fold", 0, false, none⟩, ⟨"HJ", "Fold", 0, false, none⟩,
       ⟨"CO", "Fold", 0, false, none⟩, ⟨"BTN", "Raise", 3, false, none⟩,
       ⟨"SB", "Fold", 0, false, none⟩, ⟨"BB", "Call", 3, false, none⟩] := by
  decide

/-- Claim C6: on a postflop street with no recorded aggressor among the
active positions, no event with action Call (inferred or otherwise) is
emitted. -/
theorem C6_no_aggressor_no_call (sd : StreetData) (hero : String)
    (folded : List String)
    (hagg : firstAggIdx (postflopMaps sd).firstActions (activePositions folded) =
      none) :
    ∀ a ∈ (buildPostflopActions sd hero folded).1, a.action ≠ "Call" := by
  intro a ha
  simp only [buildPostflopActions, hagg] at ha
  obtain ⟨_, _, _, hp⟩ := postflopFirstOrbit_events _ _ _ _ _ _ ha
  rcases hp with ⟨d, _, hact, _, hd⟩ | ⟨hact, _⟩
  · rw [hact]
    rcases hd with hd | hd | hd <;> rw [hd] <;> decide
  · rw [hact]
    decide

/-- Witness for C6: a street whose only entry is a Check. -/
theorem C6_witness :
    firstAggIdx (postflopMaps
        [("BB", JsVal.obj ⟨some "Check", none, none⟩)]).firstActions
      (activePositions []) = none ∧
    (∀ a ∈ (buildPostflopActions [("BB", JsVal.obj ⟨some "Check", none, none⟩)]
        "BTN" []).1, a.action ≠ "Call") :=
  ⟨by decide, C6_no_aggressor_no_call _ "BTN" [] (by decide)⟩

/-- Claim C7, as frozen, is false: a street-level Cards string shorter than
expectedMinLength is still returned (the minimum applies only to the nested
scan), so the extractor does not return none when no candidate reaches the
minimum length. -/
theorem C7_counterexample :
    extractBoardCards [("Cards", JsVal.str "As")] 6 = some "As" ∧
    ¬ (6 ≤ ("As" : String).length) := by
  constructor
  · rfl
  · decide

/-- Claim C7 (amended): extractBoardCards returns the street-level Cards
string whenever it is present and nonempty, regardless of
expectedMinLength; otherwise it returns the Cards string of the first
nested object value whose Cards string reaches expectedMinLength, and none
when the street-level Cards string is absent or empty and no nested value
qualifies. -/
theorem C7_extract_board_cards (sd : StreetData) (minLen : Nat) :
    extractBoardCards sd minLen = extractBoardCardsAmended sd minLen := by
  unfold extractBoardCards extractBoardCardsAmended streetCards
  rcases hl : lookupField sd "Cards" with _ | v
  · simp only [scanValuesForCards_eq_nested]
  · rcases v with s | e | _
    · by_cases hs : s = ""
      · subst hs
        simp [scanValuesForCards_eq_nested]
      · have hpos : 0 < s.length := (length_pos_iff_ne_empty s).mpr hs
        simp [hpos, hs]
    · simp only [scanValuesForCards_eq_nested]
    · simp only [scanValuesForCards_eq_nested]

/-- Claim C8, as frozen, is false: normalizeAction returns "Raise" for the
label "Raise" itself, which does not match the 3/4/5-bet pattern, so
"returns Raise exactly when the label matches the pattern" fails. -/
theorem C8_counterexample :
    normalizeAction "Raise" = "Raise" ∧ ¬ Pattern345 "Raise" := by
  refine ⟨by decide, fun hp => ?_⟩
  exact absurd ((is345Bet_iff "Raise").mpr hp) (by decide)

/-- Claim C8 (amended): normalizeAction returns "Raise" exactly when the
label matches the 3/4/5-bet pattern or is itself the string "Raise", and
for every label that does not match the pattern it returns the label
unchanged. -/
theorem C8_normalize_action (s : String) :
    (normalizeAction s = "Raise" ↔ (Pattern345 s ∨ s = "Raise")) ∧
    (normalizeAction s = s ∨ Pattern345 s) := by
  unfold normalizeAction
  by_cases hb : is345Bet s = true
  · have hp : Pattern345 s := (is345Bet_iff s).mp hb
    rw [if_pos (Bool.or_eq_true_iff.mpr (Or.inl hb))]
    exact ⟨⟨fun _ => Or.inl hp, fun _ => rfl⟩, Or.inr hp⟩
  · by_cases hc : ["3Bet", "3bet", "4Bet", "4bet", "5Bet", "5bet"].contains s = true
    · have hmem : s ∈ ["3Bet", "3bet", "4Bet", "4bet", "5Bet", "5bet"] := by
        simpa using hc
      have hb' : is345Bet s = true := by
        simp only [List.mem_cons, List.not_mem_nil, or_false] at hmem
        rcases hmem with rfl | rfl | rfl | rfl | rfl | rfl <;> decide
      exact absurd hb' hb
    · have hcond : ¬ ((is345Bet s ||
          ["3Bet", "3bet", "4Bet", "4bet", "5Bet", "5bet"].contains s) = true) := by
        intro hcon
        rcases Bool.or_eq_true_iff.mp hcon with h' | h'
        · exact hb h'
        · exact hc h'
      rw [if_neg hcond]
      have hnp : ¬ Pattern345 s := fun hp => hb ((is345Bet_iff s).mpr hp)
      refine ⟨⟨fun h' => Or.inr h', ?_⟩, Or.inl rfl⟩
      rintro (hp | rfl)
      · exact absurd hp hnp
      · rfl

/-- Claim C3, as frozen, is false: with SB betting 5 (the aggressor) and a
second-orbit raise to 15 recorded, the silent positions after the aggressor
are emitted as Call 15 (the last recorded positive Bet/Raise amount), not
Call 5 (the aggressor's amount), and the silent hero BTN is not emitted at
all. -/
theorem C3_counterexample :
    firstAggIdx (postflopMaps [("SB", JsVal.obj ⟨some "Bet", some 5, none⟩),
        ("BB_2", JsVal.obj ⟨some "Raise", some 15, none⟩)]).firstActions
      (activePositions []) = some 0 ∧
    getA (postflopMaps [("SB", JsVal.obj ⟨some "Bet", some 5, none⟩),
        ("BB_2", JsVal.obj ⟨some "Raise", some 15, none⟩)]).firstActions "SB" =
      some ⟨"Bet", 5⟩ ∧
    "BB" ∈ (activePositions []).drop 1 ∧
    getA (postflopMaps [("SB", JsVal.obj ⟨some "Bet", some 5, none⟩),
        ("BB_2", JsVal.obj ⟨some "Raise", some 15, none⟩)]).firstActions "BB" =
      none ∧
    "BTN" ∈ (activePositions []).drop 1 ∧
    getA (postflopMaps [("SB", JsVal.obj ⟨some "Bet", some 5, none⟩),
        ("BB_2", JsVal.obj ⟨some "Raise", some 15, none⟩)]).firstActions "BTN" =
      none ∧
    ¬ (∃ a ∈ (buildPostflopActions [("SB", JsVal.obj ⟨some "Bet", some 5, none⟩),
        ("BB_2", JsVal.obj ⟨some "Raise", some 15, none⟩)] "BTN" []).1,
        a.position = "BB" ∧ a.action = "Call" ∧ a.amount = 5) ∧
    ¬ (∃ a ∈ (buildPostflopActions [("SB", JsVal.obj ⟨some "Bet", some 5, none⟩),
        ("BB_2", JsVal.obj ⟨some "Raise", some 15, none⟩)] "BTN" []).1,
        a.position = "BTN") := by
  decide

/-- Claim C3 (amended): on a postflop street with a recorded aggressor,
every event emitted for an active position strictly after the aggressor
that has no recorded first-orbit entry is exactly an inferred Call at
lastBetAmount (the last recorded positive Bet/Raise amount of the street) —
in particular never a Fold or a Check; such a position may also not be
emitted at all when the traversal stops at the hero. -/
theorem C3_silent_after_aggressor (sd : StreetData) (hero : String)
    (folded : List String) (pos : String) (j : Nat)
    (hagg : firstAggIdx (postflopMaps sd).firstActions (activePositions folded) =
      some j)
    (hmem : pos ∈ (activePositions folded).drop (j + 1))
    (hnone : getA (postflopMaps sd).firstActions pos = none) :
    ∀ a ∈ (buildPostflopActions sd hero folded).1, a.position = pos →
      a = ⟨pos, "Call", (postflopMaps sd).lastAmount, false, none⟩ := by
  intro a ha hpos
  simp only [buildPostflopActions, hagg, List.mem_append] at ha
  have hnodup := activePositions_nodup folded
  have hdisj : List.Disjoint ((activePositions folded).take (j + 1))
      ((activePositions folded).drop (j + 1)) :=
    List.disjoint_take_drop hnodup (Nat.le_refl _)
  rcases ha with (ha | ha) | ha
  · have htake := postflopFirstOrbit_take (postflopMaps sd).firstActions hero
      (activePositions folded) 0 j hagg a ha
    rw [Nat.sub_zero] at htake
    exact absurd (hpos.symm ▸ hmem) (fun hm => hdisj htake hm)
  · obtain ⟨hm, hb, hc, hp⟩ := postflopAfterAgg_events _ _ _ _ _ ha
    rcases hp with ⟨d, hd, _, _, _⟩ | ⟨_, hact, hamt⟩
    · rw [hpos, hnone] at hd
      cases hd
    · rcases a with ⟨ap, aa, aam, ab, abc⟩
      dsimp only at hpos hact hamt hb hc
      subst hpos
      subst hact
      subst hamt
      subst hb
      subst hc
      rfl
  · obtain ⟨hm, _, _, _⟩ := postflopBeforeAgg_events _ _ _ _ _ ha
    have hdisj2 : List.Disjoint ((activePositions folded).take j)
        ((activePositions folded).drop (j + 1)) :=
      List.disjoint_take_drop hnodup (Nat.le_succ _)
    exact absurd (hpos.symm ▸ hmem) (fun hmm => hdisj2 hm hmm)

/-- Witness for C3 at the concrete street of the counterexample: the silent
position BB after the aggressor is only ever emitted as Call 15. -/
theorem C3_witness :
    firstAggIdx (postflopMaps [("SB", JsVal.obj ⟨some "Bet", some 5, none⟩),
        ("BB_2", JsVal.obj ⟨some "Raise", some 15, none⟩)]).firstActions
      (activePositions []) = some 0 ∧
    "BB" ∈ (activePositions ([] : List String)).drop 1 ∧
    getA (postflopMaps [("SB", JsVal.obj ⟨some "Bet", some 5, none⟩),
        ("BB_2", JsVal.obj ⟨some "Raise", some 15, none⟩)]).firstActions "BB" =
      none ∧
    (∀ a ∈ (buildPostflopActions [("SB", JsVal.obj ⟨some "Bet", some 5, none⟩),
        ("BB_2", JsVal.obj ⟨some "Raise", some 15, none⟩)] "HERO" []).1,
      a.position = "BB" →
        a = ⟨"BB", "Call", (postflopMaps [("SB", JsVal.obj ⟨some "Bet", some 5,
          none⟩), ("BB_2", JsVal.obj ⟨some "Raise", some 15, none⟩)]).lastAmount,
          false, none⟩) :=
  ⟨by decide, by decide, by decide,
    C3_silent_after_aggressor _ "HERO" [] "BB" 0 (by decide) (by decide)
      (by decide)⟩

/-- Claim C5, as frozen, is false: lastRaiseAmount is updated by any Raise
entry with positive amount, second-orbit keys included.  Here the only
raise is the second-orbit entry BTN_2 (Raise 7), yet UTG's amountless Call
is emitted at 7, not at the claimed lastRaiseAmount of 1.0. -/
theorem C5_counterexample :
    (⟨"UTG", "Call", 7, false, none⟩ : HandAction) ∈
      (buildPreflopActions [("UTG", JsVal.obj ⟨some "Call", none, none⟩),
        ("BTN_2", JsVal.obj ⟨some "Raise", some 7, none⟩)] "BB").1 ∧
    ¬ (∃ a ∈ (buildPreflopActions [("UTG", JsVal.obj ⟨some "Call", none, none⟩),
        ("BTN_2", JsVal.obj ⟨some "Raise", some 7, none⟩)] "BB").1,
        a.position = "UTG" ∧ a.amount = 1) := by
  decide

/-- Claim C5 (amended): zero- or absent-amount Call entries (in either
orbit map) are backfilled to lastRaiseAmount, where lastRaiseAmount starts
at the big blind 1.0 and is updated by every entry — first- or second-orbit
— that normalizes to Raise with a positive amount, the last such entry in
iteration order winning; and every emitted Call event for a position whose
first-orbit entry is a zero-amount Call (and whose second-orbit entry, if
any, is also a zero-amount Call) carries amount lastRaiseAmount. -/
theorem C5_call_amount_inference (preflop : StreetData) (pos hero : String) :
    (getA (collectPreflop preflop ⟨[], [], 1⟩).firstActions pos =
        some ⟨"Call", 0⟩ →
      getA (preflopMaps preflop).firstActions pos =
        some ⟨"Call", (preflopMaps preflop).lastAmount⟩) ∧
    (getA (collectPreflop preflop ⟨[], [], 1⟩).secondActions pos =
        some ⟨"Call", 0⟩ →
      getA (preflopMaps preflop).secondActions pos =
        some ⟨"Call", (preflopMaps preflop).lastAmount⟩) ∧
    (preflopMaps preflop).lastAmount = lastPositiveRaiseAmount preflop ∧
    (getA (collectPreflop preflop ⟨[], [], 1⟩).firstActions pos =
        some ⟨"Call", 0⟩ →
      (getA (collectPreflop preflop ⟨[], [], 1⟩).secondActions pos = none ∨
        getA (collectPreflop preflop ⟨[], [], 1⟩).secondActions pos =
          some ⟨"Call", 0⟩) →
      ∀ a ∈ (buildPreflopActions preflop hero).1, a.position = pos →
        a.action = "Call" → a.amount = (preflopMaps preflop).lastAmount) := by
  refine ⟨?_, ?_, ?_, ?_⟩
  · intro h
    rw [preflopMaps_first, preflopMaps_last, getA_inferCalls, h]
    simp
  · intro h
    rw [preflopMaps_second, preflopMaps_last, getA_inferCalls, h]
    simp
  · rw [preflopMaps_last, collectPreflop_lastAmount]
    rfl
  · intro h1 h2 a ha hpos hact
    obtain ⟨_, _, _, hp⟩ := buildPreflopActions_shape preflop hero a ha
    have hfirst : getA (preflopMaps preflop).firstActions pos =
        some ⟨"Call", (preflopMaps preflop).lastAmount⟩ := by
      rw [preflopMaps_first, preflopMaps_last, getA_inferCalls, h1]
      simp
    rcases hp with rfl | hp
    · simp at hact
    rcases hp with rfl | hp
    · simp at hact
    rcases hp with ⟨d, hd, _, hamt⟩ | hp
    · rw [hpos, hfirst] at hd
      obtain rfl := Option.some.inj hd
      rw [hamt]
    rcases hp with ⟨hfold, _⟩ | hp
    · rw [hact] at hfold
      simp at hfold
    rcases hp with ⟨d, hd, _, hamt⟩ | hp
    · rw [hpos] at hd
      rcases h2 with h2 | h2
      · rw [preflopMaps_second, getA_inferCalls, h2] at hd
        simp at hd
      · have hd2 : getA (preflopMaps preflop).secondActions pos =
            some ⟨"Call", (preflopMaps preflop).lastAmount⟩ := by
          rw [preflopMaps_second, preflopMaps_last, getA_inferCalls, h2]
          simp
        rw [hd2] at hd
        obtain rfl := Option.some.inj hd
        rw [hamt]
    · obtain ⟨_, _, horig⟩ := hp
      rw [hpos] at horig
      obtain ⟨d, hd, hdr⟩ := raiseScan_orig (preflopMaps preflop).firstActions
        (preflopMaps preflop).lastAmount pos horig
      rw [hfirst] at hd
      obtain rfl := Option.some.inj hd
      simp at hdr

/-- Claim C10: every event in the queue is a board event exactly when its
position is the empty string, and every non-board event's position is one
of the six canonical position names. -/
theorem C10_board_iff_empty_position (h : HandInput) (hero : String) :
    ∀ a ∈ buildActionQueue h hero,
      ((a.isBoard = true ↔ a.position = "") ∧
        (a.isBoard = false → a.position ∈ ALL_POSITIONS)) := by
  have hP : ∀ b ∈ buildActionQueue h hero,
      (b.isBoard = true ∧ b.position = "") ∨
        (b.isBoard = false ∧ b.position ∈ ALL_POSITIONS) := by
    intro b hb
    unfold buildActionQueue at hb
    refine runStreets_events hero
      (fun c => (c.isBoard = true ∧ c.position = "") ∨
        (c.isBoard = false ∧ c.position ∈ ALL_POSITIONS)) ?_ _ _ ?_ b hb
    · intro folded sv len c hc
      rcases streetStep_events hero folded sv len c hc with ⟨h1, h2⟩ | ⟨h1, h2⟩
      · exact Or.inl ⟨h1, h2⟩
      · exact Or.inr ⟨h1, mem_postflop_all (mem_activePositions.mp h2).1⟩
    · rcases hsv : streetObj h.preflop with _ | pf
      · intro c hc
        simp only [hsv] at hc
        simp at hc
      · intro c hc
        simp only [hsv] at hc
        obtain ⟨hb', hc', hm, _⟩ := buildPreflopActions_shape pf hero c hc
        exact Or.inr ⟨hb', hm⟩
  intro a ha
  rcases hP a ha with ⟨hb, hpos⟩ | ⟨hb, hpos⟩
  · constructor
    · exact ⟨fun _ => hpos, fun _ => hb⟩
    · intro hcon
      rw [hb] at hcon
      cases hcon
  · constructor
    · constructor
      · intro hcon
        rw [hb] at hcon
        cases hcon
      · intro hcon
        rw [hcon] at hpos
        simp [ALL_POSITIONS] at hpos
    · intro _
      exact hpos

/-- Witness for C10 at a concrete queue and event. -/
theorem C10_witness :
    ((⟨"SB", "Post", mkRat 1 2, false, none⟩ : HandAction) ∈
      buildActionQueue ⟨StreetVal.obj [], StreetVal.absent, StreetVal.absent,
        StreetVal.absent⟩ "BB") ∧
    (((⟨"SB", "Post", mkRat 1 2, false, none⟩ : HandAction).isBoard = true ↔
        (⟨"SB", "Post", mkRat 1 2, false, none⟩ : HandAction).position = "") ∧
      ((⟨"SB", "Post", mkRat 1 2, false, none⟩ : HandAction).isBoard = false →
        (⟨"SB", "Post", mkRat 1 2, false, none⟩ : HandAction).position ∈
          ALL_POSITIONS)) :=
  ⟨by decide, C10_board_iff_empty_position
    ⟨StreetVal.obj [], StreetVal.absent, StreetVal.absent, StreetVal.absent⟩
    "BB" _ (by decide)⟩
